import Mathlib

/-!
Shallow embedding of the TFLite-Micro static memory allocator
(`src/src/tensorflow/lite/micro/micro_allocator.cc`) and proofs about it.

Pointers are modelled as byte offsets (`Nat`, or `Option Int` for possibly
null data pointers) from the 16-byte aligned arena base.  Components of the
repository that are not part of `src/` (the `SimpleMemoryAllocator`, the
greedy memory planner, the flatbuffer decoder and small helpers from
`memory_helpers.h` / `micro_allocator.h`) are modelled from the design
specification; each such definition is marked `Modelled from the spec:`.
-/

set_option autoImplicit false

namespace tflite

/-- Modelled from the spec: `AlignSizeUp` from memory_helpers.h (the helper
lives outside src/): round `n` up to the next multiple of `a`. -/
def alignUp (n a : Nat) : Nat := ((n + a - 1) / a) * a

/-- Modelled from the spec: `AlignPointerDown`, rounding an offset down to a
multiple of the alignment `a` (used by the tail allocator; outside src/). -/
def alignDown (n a : Nat) : Nat := (n / a) * a

/-- Tensor buffers are aligned to 16-byte boundaries (`kBufferAlignment`),
since this is a common requirement for SIMD extensions. -/
def kBufferAlignment : Nat := 16

/-- Modelled from the spec: `kOnlinePlannedBuffer` (declared in
micro_allocator.h, outside src/) is the sentinel offline offset marking a
buffer whose placement is chosen online by the planner; the offline metadata
encodes it as `-1` ("allocate at runtime"). -/
def kOnlinePlannedBuffer : Int := -1

/-- Modelled from the spec: byte size of one `AllocationInfo` record
(machine-layout constant; only its magnitude matters for exhaustion). -/
def sizeofAllocationInfo : Nat := 32

/-- Modelled from the spec: byte size of one `TfLiteEvalTensor` record. -/
def sizeofTfLiteEvalTensor : Nat := 16

/-- Modelled from the spec: byte size of one `NodeAndRegistration` record. -/
def sizeofNodeAndRegistration : Nat := 32

/-- Modelled from the spec: byte size of one `internal::ScratchBufferHandle`
record (byte size, owning node index, data pointer). -/
def sizeofScratchBufferHandle : Nat := 16

/-- Modelled from the spec: alignment of the records above on the target. -/
def alignofRecord : Nat := 4

/-- Modelled from the spec: `TfLiteIntArrayGetSizeInBytes` for a
length-prefixed int array of `len` elements. -/
def intArraySizeInBytes (len : Nat) : Nat := 4 + 4 * len

/-! ## Dual-cursor arena (`SimpleMemoryAllocator`)

Modelled from the spec: simple_memory_allocator.cc is not under src/; the
spec describes a dual-ended bump allocator over one contiguous byte region
with a head cursor growing up, a tail cursor growing down and a temp-high
watermark in the head region. -/

/-- Modelled from the spec: state of the dual-cursor arena allocator.
All cursors are byte offsets from the aligned arena base;
`head ≤ tail ≤ size` is the intended invariant. -/
structure SimpleMemoryAllocator where
  size : Nat
  head : Nat
  tail : Nat
  temp : Nat
deriving Repr, DecidableEq

namespace SimpleMemoryAllocator

/-- Modelled from the spec: `from_tail` — permanent allocation.  Moves the
tail cursor down, rounds down to the alignment, returns the new offset;
fails (returns null, i.e. `none`) if the allocation would cross the head
cursor. -/
def allocateFromTail (a : SimpleMemoryAllocator) (bytes align : Nat) :
    Option (Nat × SimpleMemoryAllocator) :=
  if bytes ≤ a.tail then
    let p := alignDown (a.tail - bytes) align
    if p < a.head then none else some (p, { a with tail := p })
  else none

/-- Modelled from the spec: `ensure_head` — reserves the first `bytes` bytes
of the head region at the given alignment, displacing the head cursor to
`max(current, base + bytes)`; fails if it would cross the tail cursor. -/
def ensureHeadSize (a : SimpleMemoryAllocator) (bytes align : Nat) :
    Option SimpleMemoryAllocator :=
  let h := max a.head (alignUp bytes align)
  if a.tail < h then none
  else some { a with head := h, temp := max a.temp h }

/-- Modelled from the spec: `allocate_temp` — allocates above the temp-high
watermark in the head region; temps are freed collectively by reset. -/
def allocateTemp (a : SimpleMemoryAllocator) (bytes align : Nat) :
    Option (Nat × SimpleMemoryAllocator) :=
  let p := alignUp a.temp align
  if p + bytes ≤ a.tail then some (p, { a with temp := p + bytes }) else none

/-- Modelled from the spec: `buffer_head()` exposes the head-region base —
the arena base, which is the address origin of this model. -/
def getBufferHead (_ : SimpleMemoryAllocator) : Nat := 0

/-- Modelled from the spec: `GetTail` exposes the current tail cursor. -/
def getTail (a : SimpleMemoryAllocator) : Nat := a.tail

/-- Modelled from the spec: bytes available between the cursors when both
are adjusted to the given alignment. -/
def getAvailableMemory (a : SimpleMemoryAllocator) (align : Nat) : Nat :=
  alignDown a.tail align - alignUp a.head align

end SimpleMemoryAllocator

/-! ## Serialized model (flatbuffer) data, as consumed by the allocator

The flatbuffer reader is an external collaborator; these structures model
exactly the query results the allocator consumes. -/

/-- One serialized buffer.  `dataAddr`/`dataSize` model the `data()` byte
array (address into the serialized model, `none` when `data()` is null);
`words` is the same payload viewed as 32-bit words, as the offline-plan
metadata decoder reads it. -/
structure FBBuffer where
  dataAddr : Option Nat := none
  dataSize : Nat := 0
  words : List Int := []
deriving Repr, DecidableEq, Inhabited

/-- Serialized per-tensor quantization data.  Float payloads (the scale
values) are carried opaquely as words; no claim computes with them. -/
structure FBQuantization where
  scale : List Int := []
  zeroPoints : List Int := []
  quantizedDimension : Int := 0
deriving Repr, DecidableEq, Inhabited

/-- One serialized tensor: shape (absent for a scalar), buffer index,
variable flag and the byte length `BytesRequiredForTensor` computes for it
(that helper is outside src/ and is modelled by this stored field). -/
structure FBTensor where
  shape : Option (List Int) := none
  buffer : Nat := 0
  is_variable : Bool := false
  bytes : Nat := 0
  quantization : Option FBQuantization := none
deriving Repr, DecidableEq, Inhabited

/-- One serialized operator: tensor indices of its inputs and outputs,
opcode-table index, and the optional custom-options byte blob. -/
structure FBOperator where
  inputs : List Nat := []
  outputs : List Nat := []
  opcode_index : Nat := 0
  custom_options : Option (List Int) := none
deriving Repr, DecidableEq, Inhabited

/-- One subgraph: tensors, subgraph input/output tensor indices, operators
in execution order. -/
structure SubGraph where
  tensors : List FBTensor := []
  inputs : List Nat := []
  outputs : List Nat := []
  operators : List FBOperator := []
deriving Repr, DecidableEq, Inhabited

/-- One metadata entry.  `nameIsOfflineMemAlloc` models the result of
`strncmp(name, "OfflineMemoryAllocation", 23) == 0`. -/
structure Metadata where
  nameIsOfflineMemAlloc : Bool := false
  buffer : Nat := 0
deriving Repr, DecidableEq, Inhabited

/-- One operator-code table entry of the model. -/
structure OpCode where
  builtin_code : Int := 0
deriving Repr, DecidableEq, Inhabited

/-- The serialized model, restricted to what micro_allocator.cc queries. -/
structure Model where
  subgraphs : List SubGraph := []
  buffers : List FBBuffer := []
  operator_codes : List OpCode := []
  metadata : Option (List Metadata) := none
deriving Repr, DecidableEq, Inhabited

/-! ## Runtime tensors and dimension arrays -/

/-- Provenance of a tensor's `dims` pointer: null, the shared
`kZeroLengthIntArray`, a little-endian zero-copy alias into the serialized
model, or a tail-allocated copy (big-endian path). -/
inductive DimsRef
  | nullDims
  | zeroLengthShared
  | flatbufferAlias (v : List Int)
  | tailCopy (addr : Nat) (v : List Int)
deriving Repr, DecidableEq

instance : Inhabited DimsRef := ⟨.nullDims⟩

/-- `kZeroLengthIntArray = {0, {}}`: the contents of the shared zero-length
`TfLiteIntArray` constant. -/
def kZeroLengthIntArray : List Int := []

/-- Dereference a dims pointer: `none` when it is null. -/
def DimsRef.toArray : DimsRef → Option (List Int)
  | .nullDims => none
  | .zeroLengthShared => some kZeroLengthIntArray
  | .flatbufferAlias v => some v
  | .tailCopy _ v => some v

/-- `TfLiteEvalTensor`: data pointer (null = `none`), dims pointer and the
byte length that `TfLiteEvalTensorByteLength` (outside src/) reports. -/
structure TfLiteEvalTensor where
  data : Option Int := none
  dims : DimsRef := .nullDims
  bytes : Nat := 0
deriving Repr, DecidableEq, Inhabited

/-- The `allocation_type` tag of a full `TfLiteTensor`. -/
inductive AllocType
  | arenaRw
  | mmapRo
deriving Repr, DecidableEq

instance : Inhabited AllocType := ⟨.arenaRw⟩

/-- Materialized per-channel quantization metadata (addresses of the two
arena allocations plus the copied fields). -/
structure QuantAlloc where
  affineAddr : Nat
  zeroPointAddr : Nat
  scale : DimsRef
  zeroPoints : List Int
  quantizedDimension : Int
deriving Repr, DecidableEq

/-- Full `TfLiteTensor` metadata, restricted to the fields the allocator
writes. -/
structure TfLiteTensor where
  data : Option Int := none
  is_variable : Bool := false
  allocation_type : AllocType := .arenaRw
  bytes : Nat := 0
  dims : DimsRef := .nullDims
  quantization : Option QuantAlloc := none
deriving Repr, DecidableEq

/-- `internal::GetFlatbufferTensorBuffer`: address of the serialized
constant buffer backing a tensor, or null when the buffer is absent or its
data array is missing or empty. -/
def getFlatbufferTensorBuffer (t : FBTensor) (buffers : List FBBuffer) :
    Option Int :=
  match (buffers.getD t.buffer default).dataAddr with
  | some addr =>
      if (buffers.getD t.buffer default).dataSize ≠ 0 then some (addr : Int)
      else none
  | none => none

/-- `internal::FlatBufferVectorToTfLiteTypeArray`: on a little-endian host
(`le = true`) return a zero-copy alias into the serialized model; otherwise
allocate from the tail and copy, failing (with the byte count that was
reported) when the tail allocation returns null. -/
def flatBufferVectorToTfLiteTypeArray (le : Bool)
    (a : SimpleMemoryAllocator) (v : List Int) :
    Except Nat (DimsRef × SimpleMemoryAllocator) :=
  if le then .ok (.flatbufferAlias v, a)
  else
    match a.allocateFromTail (intArraySizeInBytes v.length) alignofRecord with
    | none => .error (intArraySizeInBytes v.length)
    | some (p, a') => .ok (.tailCopy p v, a')

/-- `internal::InitializeTfLiteEvalTensorFromFlatbuffer`, under a shortened
Lean name.  `ConvertTensorType` is modelled as total: no claim concerns
unknown tensor types. -/
def initEvalTensorFromFlatbuffer (le : Bool) (a : SimpleMemoryAllocator)
    (t : FBTensor) (buffers : List FBBuffer) :
    Except Nat (TfLiteEvalTensor × SimpleMemoryAllocator) :=
  let data := getFlatbufferTensorBuffer t buffers
  match t.shape with
  | none => .ok ({ data := data, dims := .zeroLengthShared, bytes := t.bytes }, a)
  | some shp =>
    match flatBufferVectorToTfLiteTypeArray le a shp with
    | .error b => .error b
    | .ok (d, a') => .ok ({ data := data, dims := d, bytes := t.bytes }, a')

/-- Allocate either from the temp region or from the tail, following the
`allocate_temp` flag of `InitializeTfLiteTensorFromFlatbuffer`. -/
def allocateTempOrTail (a : SimpleMemoryAllocator) (fromTemp : Bool)
    (bytes align : Nat) : Option (Nat × SimpleMemoryAllocator) :=
  if fromTemp then a.allocateTemp bytes align
  else a.allocateFromTail bytes align

/-- Quantization part of `internal::InitializeTfLiteTensorFromFlatbuffer`:
allocates the `TfLiteAffineQuantization` struct and the zero-point array
(from temp or tail), converts the scale array, and copies the zero points
and the quantized dimension.  Returns `none` for the quantization field when
the serialized tensor carries no usable quantization. -/
def buildQuantization (le : Bool) (a : SimpleMemoryAllocator)
    (fromTemp : Bool) (t : FBTensor) :
    Except Nat (Option QuantAlloc × SimpleMemoryAllocator) :=
  match t.quantization with
  | none => .ok (none, a)
  | some q =>
    if q.scale = [] ∨ q.zeroPoints = [] then .ok (none, a)
    else
      match allocateTempOrTail a fromTemp sizeofAllocationInfo alignofRecord with
      | none => .error sizeofAllocationInfo
      | some (affine, a1) =>
        match allocateTempOrTail a1 fromTemp
            (intArraySizeInBytes q.scale.length) alignofRecord with
        | none => .error (intArraySizeInBytes q.scale.length)
        | some (zp, a2) =>
          match flatBufferVectorToTfLiteTypeArray le a2 q.scale with
          | .error b => .error b
          | .ok (sc, a3) =>
            .ok (some { affineAddr := affine, zeroPointAddr := zp,
                        scale := sc, zeroPoints := q.zeroPoints,
                        quantizedDimension := q.quantizedDimension }, a3)

/-- `internal::InitializeTfLiteTensorFromFlatbuffer` (shortened name; see
`initEvalTensorFromFlatbuffer`): type, variable flag, data pointer,
allocation kind, byte length, dims (shared zero-length array for a scalar)
and quantization. -/
def initTensorFromFlatbuffer (le : Bool) (a : SimpleMemoryAllocator)
    (fromTemp : Bool) (t : FBTensor) (buffers : List FBBuffer) :
    Except Nat (TfLiteTensor × SimpleMemoryAllocator) :=
  let data := getFlatbufferTensorBuffer t buffers
  let atype : AllocType := if data = none then .arenaRw else .mmapRo
  let step1 : Except Nat (DimsRef × SimpleMemoryAllocator) :=
    match t.shape with
    | none => .ok (.zeroLengthShared, a)
    | some shp => flatBufferVectorToTfLiteTypeArray le a shp
  match step1 with
  | .error b => .error b
  | .ok (dims, a1) =>
    match buildQuantization le a1 fromTemp t with
    | .error b => .error b
    | .ok (quant, a2) =>
      .ok ({ data := data, is_variable := t.is_variable,
             allocation_type := atype, bytes := t.bytes,
             dims := dims, quantization := quant }, a2)

/-! ## AllocationInfo and the `AllocationInfoBuilder` (micro_allocator.cc) -/

/-- `AllocationInfo`: per-buffer planning record.  The `output_ptr`
indirection of the source is implicit here: entry `i < tensor_count` targets
eval tensor `i`, entry `tensor_count + k` targets scratch handle `k`. -/
structure AllocationInfo where
  bytes : Nat := 0
  first_created : Int := -1
  last_used : Int := -1
  offline_offset : Int := -1
  needs_allocating : Bool := false
deriving Repr, DecidableEq

instance : Inhabited AllocationInfo := ⟨{}⟩

/-- Point update of a list; out-of-range indices leave the list unchanged
(the C original would be out-of-bounds there; the claims carry the
well-formedness hypotheses that keep every index in range). -/
def updateAt {α : Type} : List α → Nat → (α → α) → List α
  | [], _, _ => []
  | x :: xs, 0, f => f x :: xs
  | x :: xs, n + 1, f => x :: updateAt xs n f

/-- Write the `first_created` field. -/
def setFC (v : Int) (a : AllocationInfo) : AllocationInfo :=
  { a with first_created := v }

/-- Write the `last_used` field. -/
def setLU (v : Int) (a : AllocationInfo) : AllocationInfo :=
  { a with last_used := v }

/-- Field of entry `t`, reading the record default when out of range. -/
def fcAt (l : List AllocationInfo) (t : Nat) : Int :=
  (l.getD t default).first_created

/-- The `last_used` field of entry `t`. -/
def luAt (l : List AllocationInfo) (t : Nat) : Int :=
  (l.getD t default).last_used

/-- The `needs_allocating` field of entry `t`. -/
def naAt (l : List AllocationInfo) (t : Nat) : Bool :=
  (l.getD t default).needs_allocating

/-- First loop of `AllocationInfoBuilder::AddTensors`: one entry per
subgraph tensor with bytes from `TfLiteEvalTensorByteLength`, lifetimes
`-1`, `needs_allocating` iff the eval tensor's data pointer is null and the
tensor is not variable, and the offline offset from the metadata (or the
online sentinel). -/
def addTensorsInit (sg : SubGraph) (offline : Option (List Int))
    (eval : List TfLiteEvalTensor) : List AllocationInfo :=
  (List.range sg.tensors.length).map fun i =>
    { bytes := (eval.getD i default).bytes
      first_created := -1
      last_used := -1
      needs_allocating :=
        decide ((eval.getD i default).data = none) &&
          !(sg.tensors.getD i default).is_variable
      offline_offset :=
        match offline with
        | some offs => offs.getD i 0
        | none => kOnlinePlannedBuffer }

/-- Second loop of `AddTensors`: every subgraph input gets
`first_created = 0`. -/
def markInputs (inputs : List Nat) (info : List AllocationInfo) :
    List AllocationInfo :=
  inputs.foldl (fun acc t => updateAt acc t (setFC 0)) info

/-- Third loop of `AddTensors`: every subgraph output gets
`last_used = operator_count - 1` (computed in `Int`, as the source's
unsigned-to-int conversion yields `-1` for an empty operator list). -/
def markOutputs (opCount : Nat) (outputs : List Nat)
    (info : List AllocationInfo) : List AllocationInfo :=
  outputs.foldl (fun acc t => updateAt acc t (setLU ((opCount : Int) - 1))) info

/-- Inner workaround scan of the reverse loop (the `TODO(b/166484865)`
block): once triggered, every input tensor of the operator that still has
`first_created == -1` and `needs_allocating` set receives
`first_created = i`. -/
def scanStep (i : Int) (acc : List AllocationInfo) (t : Nat) :
    List AllocationInfo :=
  if naAt acc t = true ∧ fcAt acc t = -1 then updateAt acc t (setFC i)
  else acc

def scanSetCreated (i : Int) (opInputs : List Nat)
    (info : List AllocationInfo) : List AllocationInfo :=
  opInputs.foldl (scanStep i) info

/-- One step of the reverse loop's input iteration: run the workaround scan
when the current input's `first_created` is `0`, then raise `last_used`
to `i` when it was `-1` or below `i`. -/
def inputStep (opInputs : List Nat) (i : Int)
    (acc : List AllocationInfo) (t : Nat) : List AllocationInfo :=
  let acc1 := if fcAt acc t = 0 then scanSetCreated i opInputs acc else acc
  if luAt acc1 t = -1 ∨ luAt acc1 t < i then updateAt acc1 t (setLU i)
  else acc1

/-- The reverse loop's iteration over an operator's inputs. -/
def processOpInputs (i : Int) (opInputs : List Nat)
    (info : List AllocationInfo) : List AllocationInfo :=
  opInputs.foldl (inputStep opInputs i) info

/-- One step of the reverse loop's output iteration: lower `first_created`
to `i` when it was `-1` or above `i`. -/
def outputStep (i : Int) (acc : List AllocationInfo) (t : Nat) :
    List AllocationInfo :=
  if fcAt acc t = -1 ∨ fcAt acc t > i then updateAt acc t (setFC i)
  else acc

/-- The reverse loop's iteration over an operator's outputs. -/
def processOpOutputs (i : Int) (opOutputs : List Nat)
    (info : List AllocationInfo) : List AllocationInfo :=
  opOutputs.foldl (outputStep i) info

/-- One iteration of the reverse loop: inputs first, then outputs. -/
def processOp (ops : List FBOperator) (i : Nat)
    (info : List AllocationInfo) : List AllocationInfo :=
  processOpOutputs (i : Int) (ops.getD i default).outputs
    (processOpInputs (i : Int) (ops.getD i default).inputs info)

/-- The reverse loop `for (int i = operators.size() - 1; i >= 0; --i)`,
expressed by recursion on the counter: `lifetimeLoopAux ops n` processes
operator indices `n-1, n-2, …, 0` in that order. -/
def lifetimeLoopAux (ops : List FBOperator) :
    Nat → List AllocationInfo → List AllocationInfo
  | 0, info => info
  | n + 1, info => lifetimeLoopAux ops n (processOp ops n info)

/-- The full reverse loop over all operators. -/
def lifetimeLoop (ops : List FBOperator) (info : List AllocationInfo) :
    List AllocationInfo :=
  lifetimeLoopAux ops ops.length info

/-- Lifetime derivation of `AddTensors` (everything before the post-pass). -/
def deriveLifetimes (sg : SubGraph) (offline : Option (List Int))
    (eval : List TfLiteEvalTensor) : List AllocationInfo :=
  lifetimeLoop sg.operators
    (markOutputs sg.operators.length sg.outputs
      (markInputs sg.inputs (addTensorsInit sg offline eval)))

/-- Condition under which the post-pass clears `needs_allocating`: the
tensor is read-only (consumed but never produced). -/
def isReadOnly (a : AllocationInfo) : Prop :=
  a.first_created = -1 ∧ a.last_used ≠ -1

instance (a : AllocationInfo) : Decidable (isReadOnly a) := by
  unfold isReadOnly; infer_instance

/-- Clearing step of the post-pass. -/
def clearReadOnly (a : AllocationInfo) : AllocationInfo :=
  if isReadOnly a then { a with needs_allocating := false } else a

/-- Condition under which the post-pass fails for an entry: not read-only,
at least one lifetime end missing, and `needs_allocating` still set. -/
def isInvalidLifetime (a : AllocationInfo) : Prop :=
  ¬isReadOnly a ∧ (a.first_created = -1 ∨ a.last_used = -1) ∧
    a.needs_allocating = true

instance (a : AllocationInfo) : Decidable (isInvalidLifetime a) := by
  unfold isInvalidLifetime; infer_instance

/-- Post-pass of `AddTensors` ("work out which tensors need to be
allocated"): clear `needs_allocating` for read-only tensors and fail with
the tensor index and its lifetime values at the first entry with an invalid
(partial) lifetime. -/
def postPassAux (idx : Nat) :
    List AllocationInfo → Except (Nat × Int × Int) (List AllocationInfo)
  | [] => .ok []
  | a :: rest =>
    let a' := clearReadOnly a
    if isInvalidLifetime a then .error (idx, a.first_created, a.last_used)
    else
      match postPassAux (idx + 1) rest with
      | .error e => .error e
      | .ok out => .ok (a' :: out)

/-- `AllocationInfoBuilder::AddTensors`: lifetime derivation followed by the
post-pass; the error payload is the reported tensor index with its
`first_created` / `last_used` values. -/
def addTensors (sg : SubGraph) (offline : Option (List Int))
    (eval : List TfLiteEvalTensor) :
    Except (Nat × Int × Int) (List AllocationInfo) :=
  postPassAux 0 (deriveLifetimes sg offline eval)

/-- The scratch-buffer handle record (`internal::ScratchBufferHandle`). -/
structure ScratchBufferHandle where
  bytes : Nat := 0
  node_idx : Int := 0
  data : Option Int := none
deriving Repr, DecidableEq, Inhabited

/-- `AllocationInfoBuilder::AddScratchBuffers`: one entry per scratch
handle, appended after the tensor entries, with
`first_created = last_used = node_idx`, `needs_allocating = true` and the
online sentinel. -/
def addScratchBuffers (handles : List ScratchBufferHandle) :
    List AllocationInfo :=
  handles.map fun h =>
    { bytes := h.bytes
      first_created := h.node_idx
      last_used := h.node_idx
      offline_offset := kOnlinePlannedBuffer
      needs_allocating := true }

/-- `AllocationInfoBuilder::GetOfflinePlannedOffsets`: scan the metadata for
an `"OfflineMemoryAllocation"` entry; on a match, read the word buffer, set
the result to the offsets starting at word 3, and fail when word 2 (the
offset count) differs from the subgraph tensor count.  Words 0 (version) and
1 (subgraph index) are read but not validated here. -/
def getOfflinePlannedOffsets (tensorCount : Nat) (model : Model) :
    Except (Nat × Nat) (Option (List Int)) :=
  match model.metadata with
  | none => .ok none
  | some mds =>
    mds.foldl (fun acc md =>
      match acc with
      | .error e => .error e
      | .ok cur =>
        if md.nameIsOfflineMemAlloc then
          let words := (model.buffers.getD md.buffer default).words
          let nbrTensors := (words.getD 2 0).toNat
          let offs := words.drop 3
          if tensorCount ≠ nbrTensors then .error (nbrTensors, tensorCount)
          else .ok (some offs)
        else .ok cur) (.ok none)

/-- `CheckOfflinePlannedOffsets` (the helper that is compiled only outside
clang and is never called): validates version = 1 and subgraph index = 0 in
addition to the tensor count. -/
def checkOfflinePlannedOffsets (model : Model) : Bool :=
  match model.metadata with
  | none => true
  | some mds =>
    mds.all fun md =>
      if md.nameIsOfflineMemAlloc then
        let words := (model.buffers.getD md.buffer default).words
        let version := words.getD 0 0
        let subgraphIdx := words.getD 1 0
        let nbrOffsets := (words.getD 2 0).toNat
        let nbrTensors := ((model.subgraphs.getD 0 default).tensors).length
        version = 1 && subgraphIdx = 0 && nbrTensors = nbrOffsets
      else true

/-! ## Pointwise lemmas about the builder's list updates -/

@[simp]
theorem length_updateAt {α : Type} (l : List α) (i : Nat) (f : α → α) :
    (updateAt l i f).length = l.length := by
  induction l generalizing i with
  | nil => rfl
  | cons x xs ih =>
    cases i with
    | zero => rfl
    | succ n => simpa [updateAt] using ih n

theorem updateAt_oob {α : Type} (l : List α) (i : Nat) (f : α → α)
    (h : l.length ≤ i) : updateAt l i f = l := by
  induction l generalizing i with
  | nil => rfl
  | cons x xs ih =>
    cases i with
    | zero => exact absurd h (by simp)
    | succ n => simp [updateAt, ih n (by simpa using h)]

theorem getD_updateAt_ne {α : Type} (l : List α) (i j : Nat) (f : α → α)
    (d : α) (h : j ≠ i) : (updateAt l i f).getD j d = l.getD j d := by
  induction l generalizing i j with
  | nil => rfl
  | cons x xs ih =>
    cases i with
    | zero =>
      cases j with
      | zero => exact absurd rfl h
      | succ m => simp [updateAt]
    | succ n =>
      cases j with
      | zero => simp [updateAt]
      | succ m => simpa [updateAt] using ih n m (fun hc => h (by simp [hc]))

theorem getD_updateAt_self {α : Type} (l : List α) (i : Nat) (f : α → α)
    (d : α) (h : i < l.length) :
    (updateAt l i f).getD i d = f (l.getD i d) := by
  induction l generalizing i with
  | nil => simp at h
  | cons x xs ih =>
    cases i with
    | zero => rfl
    | succ n => simpa [updateAt] using ih n (by simpa using h)

@[simp]
theorem default_first_created : (default : AllocationInfo).first_created = -1 := rfl

@[simp]
theorem default_last_used : (default : AllocationInfo).last_used = -1 := rfl

@[simp]
theorem default_needs_allocating :
    (default : AllocationInfo).needs_allocating = false := rfl

theorem fcAt_updateAt_setFC (l : List AllocationInfo) (t s : Nat) (v : Int) :
    fcAt (updateAt l t (setFC v)) s =
      if s = t ∧ t < l.length then v else fcAt l s := by
  by_cases hs : s = t
  · subst hs
    by_cases ht : s < l.length
    · unfold fcAt
      rw [getD_updateAt_self _ _ _ _ ht]
      simp [setFC, ht]
    · rw [updateAt_oob _ _ _ (Nat.le_of_not_lt ht)]
      simp [ht]
  · unfold fcAt
    rw [getD_updateAt_ne _ _ _ _ _ hs]
    simp [hs]

theorem luAt_updateAt_setFC (l : List AllocationInfo) (t s : Nat) (v : Int) :
    luAt (updateAt l t (setFC v)) s = luAt l s := by
  by_cases hs : s = t
  · subst hs
    by_cases ht : s < l.length
    · unfold luAt
      rw [getD_updateAt_self _ _ _ _ ht]
      simp [setFC]
    · rw [updateAt_oob _ _ _ (Nat.le_of_not_lt ht)]
  · unfold luAt
    rw [getD_updateAt_ne _ _ _ _ _ hs]

theorem naAt_updateAt_setFC (l : List AllocationInfo) (t s : Nat) (v : Int) :
    naAt (updateAt l t (setFC v)) s = naAt l s := by
  by_cases hs : s = t
  · subst hs
    by_cases ht : s < l.length
    · unfold naAt
      rw [getD_updateAt_self _ _ _ _ ht]
      simp [setFC]
    · rw [updateAt_oob _ _ _ (Nat.le_of_not_lt ht)]
  · unfold naAt
    rw [getD_updateAt_ne _ _ _ _ _ hs]

theorem luAt_updateAt_setLU (l : List AllocationInfo) (t s : Nat) (v : Int) :
    luAt (updateAt l t (setLU v)) s =
      if s = t ∧ t < l.length then v else luAt l s := by
  by_cases hs : s = t
  · subst hs
    by_cases ht : s < l.length
    · unfold luAt
      rw [getD_updateAt_self _ _ _ _ ht]
      simp [setLU, ht]
    · rw [updateAt_oob _ _ _ (Nat.le_of_not_lt ht)]
      simp [ht]
  · unfold luAt
    rw [getD_updateAt_ne _ _ _ _ _ hs]
    simp [hs]

theorem fcAt_updateAt_setLU (l : List AllocationInfo) (t s : Nat) (v : Int) :
    fcAt (updateAt l t (setLU v)) s = fcAt l s := by
  by_cases hs : s = t
  · subst hs
    by_cases ht : s < l.length
    · unfold fcAt
      rw [getD_updateAt_self _ _ _ _ ht]
      simp [setLU]
    · rw [updateAt_oob _ _ _ (Nat.le_of_not_lt ht)]
  · unfold fcAt
    rw [getD_updateAt_ne _ _ _ _ _ hs]

theorem naAt_updateAt_setLU (l : List AllocationInfo) (t s : Nat) (v : Int) :
    naAt (updateAt l t (setLU v)) s = naAt l s := by
  by_cases hs : s = t
  · subst hs
    by_cases ht : s < l.length
    · unfold naAt
      rw [getD_updateAt_self _ _ _ _ ht]
      simp [setLU]
    · rw [updateAt_oob _ _ _ (Nat.le_of_not_lt ht)]
  · unfold naAt
    rw [getD_updateAt_ne _ _ _ _ _ hs]

theorem naAt_true_lt (l : List AllocationInfo) (t : Nat)
    (h : naAt l t = true) : t < l.length := by
  by_contra hge
  unfold naAt at h
  rw [List.getD_eq_default _ _ (Nat.le_of_not_lt hge)] at h
  simp at h

/-! ## Characterizations of the reverse-loop folds -/

theorem fcAt_scanStep (i : Int) (acc : List AllocationInfo) (t s : Nat) :
    fcAt (scanStep i acc t) s =
      if s = t ∧ naAt acc t = true ∧ fcAt acc t = -1 then i
      else fcAt acc s := by
  unfold scanStep
  by_cases hc : naAt acc t = true ∧ fcAt acc t = -1
  · rw [if_pos hc, fcAt_updateAt_setFC]
    have ht : t < acc.length := naAt_true_lt _ _ hc.1
    by_cases hst : s = t
    · simp [hst, ht, hc]
    · simp [hst]
  · rw [if_neg hc]
    have : ¬(s = t ∧ naAt acc t = true ∧ fcAt acc t = -1) :=
      fun h => hc ⟨h.2.1, h.2.2⟩
    rw [if_neg this]

theorem luAt_scanStep (i : Int) (acc : List AllocationInfo) (t s : Nat) :
    luAt (scanStep i acc t) s = luAt acc s := by
  unfold scanStep
  by_cases hc : naAt acc t = true ∧ fcAt acc t = -1
  · rw [if_pos hc, luAt_updateAt_setFC]
  · rw [if_neg hc]

theorem naAt_scanStep (i : Int) (acc : List AllocationInfo) (t s : Nat) :
    naAt (scanStep i acc t) s = naAt acc s := by
  unfold scanStep
  by_cases hc : naAt acc t = true ∧ fcAt acc t = -1
  · rw [if_pos hc, naAt_updateAt_setFC]
  · rw [if_neg hc]

theorem length_scanStep (i : Int) (acc : List AllocationInfo) (t : Nat) :
    (scanStep i acc t).length = acc.length := by
  unfold scanStep
  by_cases hc : naAt acc t = true ∧ fcAt acc t = -1
  · rw [if_pos hc, length_updateAt]
  · rw [if_neg hc]

theorem luAt_scanSetCreated (i : Int) (ins : List Nat) :
    ∀ (acc : List AllocationInfo) (s : Nat),
    luAt (scanSetCreated i ins acc) s = luAt acc s := by
  induction ins with
  | nil => intro acc s; rfl
  | cons t ts ih =>
    intro acc s
    have hstep : scanSetCreated i (t :: ts) acc
        = scanSetCreated i ts (scanStep i acc t) := rfl
    rw [hstep, ih, luAt_scanStep]

theorem naAt_scanSetCreated (i : Int) (ins : List Nat) :
    ∀ (acc : List AllocationInfo) (s : Nat),
    naAt (scanSetCreated i ins acc) s = naAt acc s := by
  induction ins with
  | nil => intro acc s; rfl
  | cons t ts ih =>
    intro acc s
    have hstep : scanSetCreated i (t :: ts) acc
        = scanSetCreated i ts (scanStep i acc t) := rfl
    rw [hstep, ih, naAt_scanStep]

theorem length_scanSetCreated (i : Int) (ins : List Nat) :
    ∀ acc : List AllocationInfo,
    (scanSetCreated i ins acc).length = acc.length := by
  induction ins with
  | nil => intro acc; rfl
  | cons t ts ih =>
    intro acc
    have hstep : scanSetCreated i (t :: ts) acc
        = scanSetCreated i ts (scanStep i acc t) := rfl
    rw [hstep, ih, length_scanStep]

theorem fcAt_scanSetCreated (i : Int) (ins : List Nat) :
    ∀ (acc : List AllocationInfo) (s : Nat),
    fcAt (scanSetCreated i ins acc) s =
      if s ∈ ins ∧ naAt acc s = true ∧ fcAt acc s = -1 then i
      else fcAt acc s := by
  induction ins with
  | nil => intro acc s; simp [scanSetCreated]
  | cons t ts ih =>
    intro acc s
    have hstep : scanSetCreated i (t :: ts) acc
        = scanSetCreated i ts (scanStep i acc t) := rfl
    rw [hstep, ih]
    rw [naAt_scanStep, fcAt_scanStep]
    by_cases hst : s = t
    · subst hst
      by_cases hna : naAt acc s = true
      · by_cases hfc : fcAt acc s = -1
        · simp [hna, hfc]
        · simp [hna, hfc]
      · simp [hna]
    · simp [hst]

theorem fcAt_inputStep (ins0 : List Nat) (i : Int)
    (acc : List AllocationInfo) (t s : Nat) :
    fcAt (inputStep ins0 i acc t) s =
      if fcAt acc t = 0 then fcAt (scanSetCreated i ins0 acc) s
      else fcAt acc s := by
  simp only [inputStep]
  by_cases htr : fcAt acc t = 0
  · rw [if_pos htr, if_pos htr]
    split
    · rw [fcAt_updateAt_setLU]
    · rfl
  · rw [if_neg htr, if_neg htr]
    split
    · rw [fcAt_updateAt_setLU]
    · rfl

theorem naAt_inputStep (ins0 : List Nat) (i : Int)
    (acc : List AllocationInfo) (t s : Nat) :
    naAt (inputStep ins0 i acc t) s = naAt acc s := by
  simp only [inputStep]
  by_cases htr : fcAt acc t = 0
  · rw [if_pos htr]
    split
    · rw [naAt_updateAt_setLU, naAt_scanSetCreated]
    · rw [naAt_scanSetCreated]
  · rw [if_neg htr]
    split
    · rw [naAt_updateAt_setLU]
    · rfl

theorem length_inputStep (ins0 : List Nat) (i : Int)
    (acc : List AllocationInfo) (t : Nat) :
    (inputStep ins0 i acc t).length = acc.length := by
  simp only [inputStep]
  by_cases htr : fcAt acc t = 0
  · rw [if_pos htr]
    split
    · rw [length_updateAt, length_scanSetCreated]
    · rw [length_scanSetCreated]
  · rw [if_neg htr]
    split
    · rw [length_updateAt]
    · rfl

theorem luAt_inputStep (ins0 : List Nat) (i : Int)
    (acc : List AllocationInfo) (t s : Nat) :
    luAt (inputStep ins0 i acc t) s =
      if s = t ∧ t < acc.length ∧ (luAt acc t = -1 ∨ luAt acc t < i) then i
      else luAt acc s := by
  simp only [inputStep]
  by_cases htr : fcAt acc t = 0
  · rw [if_pos htr]
    rw [show luAt (scanSetCreated i ins0 acc) t = luAt acc t from
      luAt_scanSetCreated i ins0 acc t]
    split
    · rename_i hcond
      rw [luAt_updateAt_setLU, length_scanSetCreated, luAt_scanSetCreated]
      by_cases hst : s = t
      · subst hst
        by_cases hlt : s < acc.length
        · simp [hlt, hcond]
        · simp [hlt]
      · simp [hst]
    · rename_i hcond
      rw [luAt_scanSetCreated]
      have : ¬(s = t ∧ t < acc.length ∧ (luAt acc t = -1 ∨ luAt acc t < i)) :=
        fun h => hcond h.2.2
      rw [if_neg this]
  · rw [if_neg htr]
    split
    · rename_i hcond
      rw [luAt_updateAt_setLU]
      by_cases hst : s = t
      · subst hst
        by_cases hlt : s < acc.length
        · simp [hlt, hcond]
        · simp [hlt]
      · simp [hst]
    · rename_i hcond
      have : ¬(s = t ∧ t < acc.length ∧ (luAt acc t = -1 ∨ luAt acc t < i)) :=
        fun h => hcond h.2.2
      rw [if_neg this]

/-- The reverse loop's input fold with the workaround scan list (`ins0`)
held fixed while the fold consumes `ins`; `processOpInputs i ins info` is
`inputsFold ins i info ins`. -/
def inputsFold (ins0 : List Nat) (i : Int) (acc : List AllocationInfo)
    (ins : List Nat) : List AllocationInfo :=
  ins.foldl (inputStep ins0 i) acc

theorem processOpInputs_eq_inputsFold (i : Int) (ins : List Nat)
    (info : List AllocationInfo) :
    processOpInputs i ins info = inputsFold ins i info ins := rfl

theorem naAt_inputsFold (ins0 : List Nat) (i : Int) :
    ∀ (ins : List Nat) (acc : List AllocationInfo) (s : Nat),
    naAt (inputsFold ins0 i acc ins) s = naAt acc s := by
  intro ins
  induction ins with
  | nil => intro acc s; rfl
  | cons t ts ih =>
    intro acc s
    have hstep : inputsFold ins0 i acc (t :: ts)
        = inputsFold ins0 i (inputStep ins0 i acc t) ts := rfl
    rw [hstep, ih, naAt_inputStep]

theorem length_inputsFold (ins0 : List Nat) (i : Int) :
    ∀ (ins : List Nat) (acc : List AllocationInfo),
    (inputsFold ins0 i acc ins).length = acc.length := by
  intro ins
  induction ins with
  | nil => intro acc; rfl
  | cons t ts ih =>
    intro acc
    have hstep : inputsFold ins0 i acc (t :: ts)
        = inputsFold ins0 i (inputStep ins0 i acc t) ts := rfl
    rw [hstep, ih, length_inputStep]

theorem fcAt_inputsFold (ins0 : List Nat) (i : Int) :
    ∀ (ins : List Nat) (acc : List AllocationInfo) (s : Nat),
    fcAt (inputsFold ins0 i acc ins) s =
      if (∃ a ∈ ins, fcAt acc a = 0) ∧ s ∈ ins0 ∧ naAt acc s = true ∧
          fcAt acc s = -1 then i
      else fcAt acc s := by
  intro ins
  induction ins with
  | nil => intro acc s; simp [inputsFold]
  | cons t ts ih =>
    intro acc s
    have hstep : inputsFold ins0 i acc (t :: ts)
        = inputsFold ins0 i (inputStep ins0 i acc t) ts := rfl
    rw [hstep, ih]
    simp only [naAt_inputStep, fcAt_inputStep]
    by_cases htr : fcAt acc t = 0
    · simp only [htr, eq_self_iff_true, if_true]
      have hex : ∃ a ∈ t :: ts, fcAt acc a = 0 :=
        ⟨t, List.mem_cons_self t ts, htr⟩
      by_cases hcond : s ∈ ins0 ∧ naAt acc s = true ∧ fcAt acc s = -1
      · have hscan : fcAt (scanSetCreated i ins0 acc) s = i := by
          rw [fcAt_scanSetCreated]; exact if_pos hcond
        rw [hscan, ite_self, if_pos ⟨hex, hcond⟩]
      · have hscan : fcAt (scanSetCreated i ins0 acc) s = fcAt acc s := by
          rw [fcAt_scanSetCreated]; exact if_neg hcond
        rw [hscan]
        have h1 : ¬((∃ a ∈ ts, fcAt (scanSetCreated i ins0 acc) a = 0) ∧
            s ∈ ins0 ∧ naAt acc s = true ∧ fcAt acc s = -1) :=
          fun h => hcond h.2
        rw [if_neg h1]
        have h2 : ¬((∃ a ∈ t :: ts, fcAt acc a = 0) ∧ s ∈ ins0 ∧
            naAt acc s = true ∧ fcAt acc s = -1) := fun h => hcond h.2
        rw [if_neg h2]
    · simp only [htr, if_false]
      have hmem : (∃ a ∈ t :: ts, fcAt acc a = 0) ↔
          (∃ a ∈ ts, fcAt acc a = 0) := by
        constructor
        · rintro ⟨a, ha, hfa⟩
          rcases List.mem_cons.mp ha with rfl | ha'
          · exact absurd hfa htr
          · exact ⟨a, ha', hfa⟩
        · rintro ⟨a, ha, hfa⟩
          exact ⟨a, List.mem_cons_of_mem _ ha, hfa⟩
      by_cases hC : (∃ a ∈ ts, fcAt acc a = 0) ∧ s ∈ ins0 ∧
          naAt acc s = true ∧ fcAt acc s = -1
      · rw [if_pos hC, if_pos ⟨hmem.mpr hC.1, hC.2⟩]
      · rw [if_neg hC]
        have : ¬((∃ a ∈ t :: ts, fcAt acc a = 0) ∧ s ∈ ins0 ∧
            naAt acc s = true ∧ fcAt acc s = -1) :=
          fun h => hC ⟨hmem.mp h.1, h.2⟩
        rw [if_neg this]

theorem luAt_inputsFold (ins0 : List Nat) (i : Int) :
    ∀ (ins : List Nat) (acc : List AllocationInfo) (s : Nat),
    luAt (inputsFold ins0 i acc ins) s =
      if s ∈ ins ∧ s < acc.length ∧ (luAt acc s = -1 ∨ luAt acc s < i) then i
      else luAt acc s := by
  intro ins
  induction ins with
  | nil => intro acc s; simp [inputsFold]
  | cons t ts ih =>
    intro acc s
    have hstep : inputsFold ins0 i acc (t :: ts)
        = inputsFold ins0 i (inputStep ins0 i acc t) ts := rfl
    rw [hstep, ih]
    rw [length_inputStep]
    simp only [luAt_inputStep]
    by_cases hst : s = t
    · subst hst
      by_cases hlt : s < acc.length
      · by_cases hcond : luAt acc s = -1 ∨ luAt acc s < i
        · simp only [hlt, hcond, and_self, and_true, true_and, if_pos rfl,
            List.mem_cons, true_or]
          by_cases hC : s ∈ ts ∧ (i = -1 ∨ i < i)
          · simp [hC]
          · simp [hC]
        · have h1 : ¬(s = s ∧ s < acc.length ∧ (luAt acc s = -1 ∨ luAt acc s < i)) :=
            fun h => hcond h.2.2
          rw [if_neg h1]
          have h2 : ¬(s ∈ ts ∧ s < acc.length ∧ (luAt acc s = -1 ∨ luAt acc s < i)) :=
            fun h => hcond h.2.2
          rw [if_neg h2]
          have h3 : ¬(s ∈ s :: ts ∧ s < acc.length ∧
              (luAt acc s = -1 ∨ luAt acc s < i)) := fun h => hcond h.2.2
          rw [if_neg h3]
      · have h1 : ¬(s = s ∧ s < acc.length ∧ (luAt acc s = -1 ∨ luAt acc s < i)) :=
          fun h => hlt h.2.1
        rw [if_neg h1]
        have h2 : ¬(s ∈ ts ∧ s < acc.length ∧ (luAt acc s = -1 ∨ luAt acc s < i)) :=
          fun h => hlt h.2.1
        rw [if_neg h2]
        have h3 : ¬(s ∈ s :: ts ∧ s < acc.length ∧
            (luAt acc s = -1 ∨ luAt acc s < i)) := fun h => hlt h.2.1
        rw [if_neg h3]
    · have h1 : ¬(s = t ∧ t < acc.length ∧ (luAt acc t = -1 ∨ luAt acc t < i)) :=
        fun h => hst h.1
      rw [if_neg h1]
      by_cases hC : s ∈ ts ∧ s < acc.length ∧ (luAt acc s = -1 ∨ luAt acc s < i)
      · rw [if_pos hC, if_pos ⟨List.mem_cons_of_mem _ hC.1, hC.2⟩]
      · rw [if_neg hC]
        have : ¬(s ∈ t :: ts ∧ s < acc.length ∧
            (luAt acc s = -1 ∨ luAt acc s < i)) := by
          intro h
          rcases List.mem_cons.mp h.1 with rfl | hmem
          · exact hst rfl
          · exact hC ⟨hmem, h.2⟩
        rw [if_neg this]

theorem fcAt_outputStep (i : Int) (acc : List AllocationInfo) (t s : Nat) :
    fcAt (outputStep i acc t) s =
      if s = t ∧ t < acc.length ∧ (fcAt acc t = -1 ∨ fcAt acc t > i) then i
      else fcAt acc s := by
  unfold outputStep
  by_cases hc : fcAt acc t = -1 ∨ fcAt acc t > i
  · rw [if_pos hc, fcAt_updateAt_setFC]
    by_cases hst : s = t
    · subst hst
      by_cases hlt : s < acc.length
      · simp [hlt, hc]
      · simp [hlt]
    · simp [hst]
  · rw [if_neg hc]
    have : ¬(s = t ∧ t < acc.length ∧ (fcAt acc t = -1 ∨ fcAt acc t > i)) :=
      fun h => hc h.2.2
    rw [if_neg this]

theorem luAt_outputStep (i : Int) (acc : List AllocationInfo) (t s : Nat) :
    luAt (outputStep i acc t) s = luAt acc s := by
  unfold outputStep
  by_cases hc : fcAt acc t = -1 ∨ fcAt acc t > i
  · rw [if_pos hc, luAt_updateAt_setFC]
  · rw [if_neg hc]

theorem naAt_outputStep (i : Int) (acc : List AllocationInfo) (t s : Nat) :
    naAt (outputStep i acc t) s = naAt acc s := by
  unfold outputStep
  by_cases hc : fcAt acc t = -1 ∨ fcAt acc t > i
  · rw [if_pos hc, naAt_updateAt_setFC]
  · rw [if_neg hc]

theorem length_outputStep (i : Int) (acc : List AllocationInfo) (t : Nat) :
    (outputStep i acc t).length = acc.length := by
  unfold outputStep
  by_cases hc : fcAt acc t = -1 ∨ fcAt acc t > i
  · rw [if_pos hc, length_updateAt]
  · rw [if_neg hc]

theorem luAt_processOpOutputs (i : Int) :
    ∀ (outs : List Nat) (acc : List AllocationInfo) (s : Nat),
    luAt (processOpOutputs i outs acc) s = luAt acc s := by
  intro outs
  induction outs with
  | nil => intro acc s; rfl
  | cons t ts ih =>
    intro acc s
    have hstep : processOpOutputs i (t :: ts) acc
        = processOpOutputs i ts (outputStep i acc t) := rfl
    rw [hstep, ih, luAt_outputStep]

theorem naAt_processOpOutputs (i : Int) :
    ∀ (outs : List Nat) (acc : List AllocationInfo) (s : Nat),
    naAt (processOpOutputs i outs acc) s = naAt acc s := by
  intro outs
  induction outs with
  | nil => intro acc s; rfl
  | cons t ts ih =>
    intro acc s
    have hstep : processOpOutputs i (t :: ts) acc
        = processOpOutputs i ts (outputStep i acc t) := rfl
    rw [hstep, ih, naAt_outputStep]

theorem length_processOpOutputs (i : Int) :
    ∀ (outs : List Nat) (acc : List AllocationInfo),
    (processOpOutputs i outs acc).length = acc.length := by
  intro outs
  induction outs with
  | nil => intro acc; rfl
  | cons t ts ih =>
    intro acc
    have hstep : processOpOutputs i (t :: ts) acc
        = processOpOutputs i ts (outputStep i acc t) := rfl
    rw [hstep, ih, length_outputStep]

theorem fcAt_processOpOutputs (i : Int) :
    ∀ (outs : List Nat) (acc : List AllocationInfo) (s : Nat),
    fcAt (processOpOutputs i outs acc) s =
      if s ∈ outs ∧ s < acc.length ∧ (fcAt acc s = -1 ∨ fcAt acc s > i) then i
      else fcAt acc s := by
  intro outs
  induction outs with
  | nil => intro acc s; simp [processOpOutputs]
  | cons t ts ih =>
    intro acc s
    have hstep : processOpOutputs i (t :: ts) acc
        = processOpOutputs i ts (outputStep i acc t) := rfl
    rw [hstep, ih]
    rw [length_outputStep]
    simp only [fcAt_outputStep]
    by_cases hst : s = t
    · subst hst
      by_cases hlt : s < acc.length
      · by_cases hcond : fcAt acc s = -1 ∨ fcAt acc s > i
        · simp only [hlt, hcond, and_self, and_true, true_and, if_pos rfl,
            List.mem_cons, true_or]
          by_cases hC : s ∈ ts ∧ ((i : Int) = -1 ∨ i > i)
          · simp [hC]
          · simp [hC]
        · have h1 : ¬(s = s ∧ s < acc.length ∧ (fcAt acc s = -1 ∨ fcAt acc s > i)) :=
            fun h => hcond h.2.2
          rw [if_neg h1]
          have h2 : ¬(s ∈ ts ∧ s < acc.length ∧ (fcAt acc s = -1 ∨ fcAt acc s > i)) :=
            fun h => hcond h.2.2
          rw [if_neg h2]
          have h3 : ¬(s ∈ s :: ts ∧ s < acc.length ∧
              (fcAt acc s = -1 ∨ fcAt acc s > i)) := fun h => hcond h.2.2
          rw [if_neg h3]
      · have h1 : ¬(s = s ∧ s < acc.length ∧ (fcAt acc s = -1 ∨ fcAt acc s > i)) :=
          fun h => hlt h.2.1
        rw [if_neg h1]
        have h2 : ¬(s ∈ ts ∧ s < acc.length ∧ (fcAt acc s = -1 ∨ fcAt acc s > i)) :=
          fun h => hlt h.2.1
        rw [if_neg h2]
        have h3 : ¬(s ∈ s :: ts ∧ s < acc.length ∧
            (fcAt acc s = -1 ∨ fcAt acc s > i)) := fun h => hlt h.2.1
        rw [if_neg h3]
    · have h1 : ¬(s = t ∧ t < acc.length ∧ (fcAt acc t = -1 ∨ fcAt acc t > i)) :=
        fun h => hst h.1
      rw [if_neg h1]
      by_cases hC : s ∈ ts ∧ s < acc.length ∧ (fcAt acc s = -1 ∨ fcAt acc s > i)
      · rw [if_pos hC, if_pos ⟨List.mem_cons_of_mem _ hC.1, hC.2⟩]
      · rw [if_neg hC]
        have : ¬(s ∈ t :: ts ∧ s < acc.length ∧
            (fcAt acc s = -1 ∨ fcAt acc s > i)) := by
          intro h
          rcases List.mem_cons.mp h.1 with rfl | hmem
          · exact hst rfl
          · exact hC ⟨hmem, h.2⟩
        rw [if_neg this]

/-! ## Per-tensor recurrence mirrored by the reverse loop

The list-level loop is proved equal, tensor by tensor, to the pure
recurrences `fcRun` / `luRun` below, which are then solved in closed form. -/

/-- Operator at index `i` (the C loop indexes unconditionally). -/
def opAt (ops : List FBOperator) (i : Nat) : FBOperator := ops.getD i default

/-- Trigger of the workaround scan at operator `i`: some input of the
operator is a subgraph input (those are exactly the tensors whose
`first_created` is `0` when the reverse loop reaches operator `i`). -/
def trigAt (sg : SubGraph) (i : Nat) : Prop :=
  ∃ a ∈ (opAt sg.operators i).inputs, a ∈ sg.inputs

instance (sg : SubGraph) (i : Nat) : Decidable (trigAt sg i) := by
  unfold trigAt; infer_instance

/-- Effect of one reverse-loop iteration on the `first_created` value of
tensor `s` whose (loop-constant) `needs_allocating` flag is `na`. -/
def fcStepP (sg : SubGraph) (na : Bool) (s i : Nat) (v : Int) : Int :=
  let v1 :=
    if s ∈ (opAt sg.operators i).inputs ∧ na = true ∧ v = -1 ∧ trigAt sg i
    then (i : Int) else v
  if s ∈ (opAt sg.operators i).outputs ∧ (v1 = -1 ∨ v1 > (i : Int))
  then (i : Int) else v1

/-- Effect of one reverse-loop iteration on the `last_used` value of
tensor `s`. -/
def luStepP (sg : SubGraph) (s i : Nat) (v : Int) : Int :=
  if s ∈ (opAt sg.operators i).inputs then
    (if v = -1 ∨ v < (i : Int) then (i : Int) else v)
  else v

/-- `fcRun sg na s n v`: the `first_created` of tensor `s` after the loop
has processed operators `n-1, …, 0` starting from value `v`. -/
def fcRun (sg : SubGraph) (na : Bool) (s : Nat) : Nat → Int → Int
  | 0, v => v
  | n + 1, v => fcRun sg na s n (fcStepP sg na s n v)

/-- `luRun sg s n v`: the `last_used` of tensor `s` after the loop has
processed operators `n-1, …, 0` starting from value `v`. -/
def luRun (sg : SubGraph) (s : Nat) : Nat → Int → Int
  | 0, v => v
  | n + 1, v => luRun sg s n (luStepP sg s n v)

/-- Well-formedness of a subgraph: all tensor indices mentioned by the
subgraph's inputs, outputs and operators are in range (the C original
indexes `info_` with them unconditionally). -/
def WFSubGraph (sg : SubGraph) : Prop :=
  (∀ t ∈ sg.inputs, t < sg.tensors.length) ∧
  (∀ t ∈ sg.outputs, t < sg.tensors.length) ∧
  (∀ op ∈ sg.operators, ∀ t ∈ op.inputs, t < sg.tensors.length) ∧
  (∀ op ∈ sg.operators, ∀ t ∈ op.outputs, t < sg.tensors.length)

instance (sg : SubGraph) : Decidable (WFSubGraph sg) := by
  unfold WFSubGraph; infer_instance

theorem opAt_mem (ops : List FBOperator) (i : Nat) (hi : i < ops.length) :
    opAt ops i ∈ ops := by
  unfold opAt
  rw [List.getD_eq_getElem ops default hi]
  exact List.getElem_mem _

theorem fcAt_processOp (sg : SubGraph) (hwf : WFSubGraph sg) (i : Nat)
    (hi : i < sg.operators.length) (info : List AllocationInfo)
    (hlen : info.length = sg.tensors.length)
    (htrig : ∀ a ∈ (opAt sg.operators i).inputs,
      (fcAt info a = 0 ↔ a ∈ sg.inputs)) (s : Nat) :
    fcAt (processOp sg.operators i info) s
      = fcStepP sg (naAt info s) s i (fcAt info s) := by
  have hop : opAt sg.operators i ∈ sg.operators := opAt_mem _ _ hi
  have houts : ∀ x ∈ (opAt sg.operators i).outputs, x < info.length :=
    fun x hx => hlen ▸ hwf.2.2.2 _ hop x hx
  have hstep : processOp sg.operators i info
      = processOpOutputs (i : Int) (opAt sg.operators i).outputs
          (inputsFold (opAt sg.operators i).inputs (i : Int) info
            (opAt sg.operators i).inputs) := rfl
  rw [hstep, fcAt_processOpOutputs, length_inputsFold, fcAt_inputsFold]
  have htrig_iff : (∃ a ∈ (opAt sg.operators i).inputs, fcAt info a = 0)
      ↔ trigAt sg i := by
    constructor
    · rintro ⟨a, ha, hfa⟩
      exact ⟨a, ha, (htrig a ha).mp hfa⟩
    · rintro ⟨a, ha, hin⟩
      exact ⟨a, ha, (htrig a ha).mpr hin⟩
  simp only [fcStepP]
  have hAB : ((∃ a ∈ (opAt sg.operators i).inputs, fcAt info a = 0) ∧
      s ∈ (opAt sg.operators i).inputs ∧ naAt info s = true ∧
      fcAt info s = -1)
      ↔ (s ∈ (opAt sg.operators i).inputs ∧ naAt info s = true ∧
        fcAt info s = -1 ∧ trigAt sg i) := by
    constructor
    · rintro ⟨he, h1, h2, h3⟩
      exact ⟨h1, h2, h3, htrig_iff.mp he⟩
    · rintro ⟨h1, h2, h3, ht⟩
      exact ⟨htrig_iff.mpr ht, h1, h2, h3⟩
  rw [if_congr hAB rfl rfl]
  have hout_iff : (s ∈ (opAt sg.operators i).outputs ∧ s < info.length ∧
      ((if s ∈ (opAt sg.operators i).inputs ∧ naAt info s = true ∧
          fcAt info s = -1 ∧ trigAt sg i then (i : Int) else fcAt info s) = -1
        ∨ (if s ∈ (opAt sg.operators i).inputs ∧ naAt info s = true ∧
          fcAt info s = -1 ∧ trigAt sg i then (i : Int) else fcAt info s)
            > (i : Int)))
      ↔ (s ∈ (opAt sg.operators i).outputs ∧
      ((if s ∈ (opAt sg.operators i).inputs ∧ naAt info s = true ∧
          fcAt info s = -1 ∧ trigAt sg i then (i : Int) else fcAt info s) = -1
        ∨ (if s ∈ (opAt sg.operators i).inputs ∧ naAt info s = true ∧
          fcAt info s = -1 ∧ trigAt sg i then (i : Int) else fcAt info s)
            > (i : Int))) := by
    constructor
    · rintro ⟨h1, _, h3⟩
      exact ⟨h1, h3⟩
    · rintro ⟨h1, h3⟩
      exact ⟨h1, houts s h1, h3⟩
  rw [if_congr hout_iff rfl rfl]

theorem luAt_processOp (sg : SubGraph) (hwf : WFSubGraph sg) (i : Nat)
    (hi : i < sg.operators.length) (info : List AllocationInfo)
    (hlen : info.length = sg.tensors.length) (s : Nat) :
    luAt (processOp sg.operators i info) s
      = luStepP sg s i (luAt info s) := by
  have hop : opAt sg.operators i ∈ sg.operators := opAt_mem _ _ hi
  have hins : ∀ x ∈ (opAt sg.operators i).inputs, x < info.length :=
    fun x hx => hlen ▸ hwf.2.2.1 _ hop x hx
  have hstep : processOp sg.operators i info
      = processOpOutputs (i : Int) (opAt sg.operators i).outputs
          (inputsFold (opAt sg.operators i).inputs (i : Int) info
            (opAt sg.operators i).inputs) := rfl
  rw [hstep, luAt_processOpOutputs, luAt_inputsFold]
  simp only [luStepP]
  by_cases hmem : s ∈ (opAt sg.operators i).inputs
  · by_cases hcond : luAt info s = -1 ∨ luAt info s < (i : Int)
    · rw [if_pos ⟨hmem, hins s hmem, hcond⟩, if_pos hmem, if_pos hcond]
    · have : ¬(s ∈ (opAt sg.operators i).inputs ∧ s < info.length ∧
          (luAt info s = -1 ∨ luAt info s < (i : Int))) := fun h => hcond h.2.2
      rw [if_neg this, if_pos hmem, if_neg hcond]
  · have : ¬(s ∈ (opAt sg.operators i).inputs ∧ s < info.length ∧
        (luAt info s = -1 ∨ luAt info s < (i : Int))) := fun h => hmem h.1
    rw [if_neg this, if_neg hmem]

theorem naAt_processOp (ops : List FBOperator) (i : Nat)
    (info : List AllocationInfo) (s : Nat) :
    naAt (processOp ops i info) s = naAt info s := by
  have hstep : processOp ops i info
      = processOpOutputs (i : Int) (opAt ops i).outputs
          (inputsFold (opAt ops i).inputs (i : Int) info
            (opAt ops i).inputs) := rfl
  rw [hstep, naAt_processOpOutputs, naAt_inputsFold]

theorem length_processOp (ops : List FBOperator) (i : Nat)
    (info : List AllocationInfo) :
    (processOp ops i info).length = info.length := by
  have hstep : processOp ops i info
      = processOpOutputs (i : Int) (opAt ops i).outputs
          (inputsFold (opAt ops i).inputs (i : Int) info
            (opAt ops i).inputs) := rfl
  rw [hstep, length_processOpOutputs, length_inputsFold]

theorem fcStepP_zero (sg : SubGraph) (na : Bool) (s i : Nat) :
    fcStepP sg na s i 0 = 0 := by
  simp only [fcStepP]
  have h1 : ¬(s ∈ (opAt sg.operators i).inputs ∧ na = true ∧ (0 : Int) = -1 ∧
      trigAt sg i) := by
    rintro ⟨_, _, h, _⟩
    exact absurd h (by decide)
  rw [if_neg h1]
  have h2 : ¬(s ∈ (opAt sg.operators i).outputs ∧
      ((0 : Int) = -1 ∨ (0 : Int) > (i : Int))) := by
    rintro ⟨_, h | h⟩
    · exact absurd h (by decide)
    · omega
  rw [if_neg h2]

theorem fcStepP_low (sg : SubGraph) (na : Bool) (s i : Nat) (v : Int)
    (h : v = -1 ∨ ((i : Int) + 1) ≤ v) :
    fcStepP sg na s i v = -1 ∨ (i : Int) ≤ fcStepP sg na s i v := by
  simp only [fcStepP]
  split <;> split <;> omega

/-- The list-level reverse loop computes, for every tensor, exactly the
per-tensor recurrences `fcRun` / `luRun`; the two invariants say that
subgraph inputs still carry `first_created = 0` and every other
`first_created` is `-1` or at least the loop counter (which is what makes
the workaround's `first_created == 0` test detect exactly the subgraph
inputs). -/
theorem lifetimeLoopAux_sim (sg : SubGraph) (hwf : WFSubGraph sg) :
    ∀ n, n ≤ sg.operators.length →
    ∀ info : List AllocationInfo, info.length = sg.tensors.length →
    (∀ t ∈ sg.inputs, fcAt info t = 0) →
    (∀ s : Nat, s ∉ sg.inputs → fcAt info s = -1 ∨ (n : Int) ≤ fcAt info s) →
    ∀ s : Nat,
      fcAt (lifetimeLoopAux sg.operators n info) s
        = fcRun sg (naAt info s) s n (fcAt info s) ∧
      luAt (lifetimeLoopAux sg.operators n info) s
        = luRun sg s n (luAt info s) := by
  intro n
  induction n with
  | zero => intro _ info _ _ _ s; exact ⟨rfl, rfl⟩
  | succ n ih =>
    intro hn info hlen hin hlow s
    have hi : n < sg.operators.length := hn
    have htrig : ∀ a ∈ (opAt sg.operators n).inputs,
        (fcAt info a = 0 ↔ a ∈ sg.inputs) := by
      intro a _
      constructor
      · intro hfa
        by_contra hnot
        rcases hlow a hnot with h | h
        · rw [hfa] at h; exact absurd h (by decide)
        · rw [hfa] at h; omega
      · intro hmem
        exact hin a hmem
    have hfc_step : ∀ x, fcAt (processOp sg.operators n info) x
        = fcStepP sg (naAt info x) x n (fcAt info x) :=
      fcAt_processOp sg hwf n hi info hlen htrig
    have hlu_step : ∀ x, luAt (processOp sg.operators n info) x
        = luStepP sg x n (luAt info x) :=
      luAt_processOp sg hwf n hi info hlen
    have hna_step : ∀ x, naAt (processOp sg.operators n info) x = naAt info x :=
      naAt_processOp sg.operators n info
    have hlen' : (processOp sg.operators n info).length = sg.tensors.length := by
      rw [length_processOp]; exact hlen
    have hin' : ∀ t ∈ sg.inputs, fcAt (processOp sg.operators n info) t = 0 := by
      intro t ht
      rw [hfc_step t, hin t ht, fcStepP_zero]
    have hlow' : ∀ x : Nat, x ∉ sg.inputs →
        fcAt (processOp sg.operators n info) x = -1 ∨
          (n : Int) ≤ fcAt (processOp sg.operators n info) x := by
      intro x hx
      rw [hfc_step x]
      apply fcStepP_low
      have := hlow x hx
      rcases this with h | h
      · exact .inl h
      · right
        have : ((n : Int) + 1) = ((n + 1 : Nat) : Int) := by push_cast; ring
        omega
    have hrec : lifetimeLoopAux sg.operators (n + 1) info
        = lifetimeLoopAux sg.operators n (processOp sg.operators n info) := rfl
    have hres := ih (Nat.le_of_succ_le hn) (processOp sg.operators n info)
      hlen' hin' hlow' s
    constructor
    · rw [hrec, hres.1, hna_step s, hfc_step s]
      rfl
    · rw [hrec, hres.2, hlu_step s]
      rfl

/-! ## Closed forms of the per-tensor recurrences -/

/-- Least operator index `m < n` whose outputs contain `s` (the earliest
producer among the processed operators). -/
def minProdBelow (ops : List FBOperator) (s : Nat) : Nat → Option Nat
  | 0 => none
  | n + 1 =>
    match minProdBelow ops s n with
    | some m => some m
    | none => if s ∈ (opAt ops n).outputs then some n else none

/-- Greatest operator index `m < n` at which the workaround scan would set
`s`: the operator consumes `s`, `s` has `needs_allocating`, and some input
of the operator is a subgraph input. -/
def maxWorkBelow (sg : SubGraph) (na : Bool) (s : Nat) : Nat → Option Nat
  | 0 => none
  | n + 1 =>
    if s ∈ (opAt sg.operators n).inputs ∧ na = true ∧ trigAt sg n then some n
    else maxWorkBelow sg na s n

/-- Greatest operator index `m < n` whose inputs contain `s` (the last
consumer). -/
def maxConsBelow (ops : List FBOperator) (s : Nat) : Nat → Option Nat
  | 0 => none
  | n + 1 => if s ∈ (opAt ops n).inputs then some n else maxConsBelow ops s n

theorem minProdBelow_lt (ops : List FBOperator) (s : Nat) :
    ∀ n m, minProdBelow ops s n = some m → m < n := by
  intro n
  induction n with
  | zero => intro m h; simp [minProdBelow] at h
  | succ n ih =>
    intro m h
    cases hm : minProdBelow ops s n with
    | some m' =>
      simp only [minProdBelow, hm] at h
      injection h with h'
      have := ih m' hm
      omega
    | none =>
      simp only [minProdBelow, hm] at h
      split at h
      · injection h with h'
        omega
      · exact absurd h (by simp)

theorem maxConsBelow_lt (ops : List FBOperator) (s : Nat) :
    ∀ n m, maxConsBelow ops s n = some m → m < n := by
  intro n
  induction n with
  | zero => intro m h; simp [maxConsBelow] at h
  | succ n ih =>
    intro m h
    simp only [maxConsBelow] at h
    split at h
    · injection h with h'
      omega
    · have := ih m h
      omega

theorem maxWorkBelow_lt (sg : SubGraph) (na : Bool) (s : Nat) :
    ∀ n m, maxWorkBelow sg na s n = some m → m < n := by
  intro n
  induction n with
  | zero => intro m h; simp [maxWorkBelow] at h
  | succ n ih =>
    intro m h
    simp only [maxWorkBelow] at h
    split at h
    · injection h with h'
      omega
    · have := ih m h
      omega

theorem fcRun_zero (sg : SubGraph) (na : Bool) (s : Nat) :
    ∀ n, fcRun sg na s n 0 = 0 := by
  intro n
  induction n with
  | zero => rfl
  | succ n ih =>
    show fcRun sg na s n (fcStepP sg na s n 0) = 0
    rw [fcStepP_zero]
    exact ih

theorem fcRun_high (sg : SubGraph) (na : Bool) (s : Nat) :
    ∀ (n : Nat) (v : Int), (n : Int) ≤ v →
    fcRun sg na s n v =
      (match minProdBelow sg.operators s n with
       | some m => (m : Int)
       | none => v) := by
  intro n
  induction n with
  | zero => intro v _; rfl
  | succ n ih =>
    intro v hv
    show fcRun sg na s n (fcStepP sg na s n v) = _
    have hv1 : fcStepP sg na s n v
        = if s ∈ (opAt sg.operators n).outputs then (n : Int) else v := by
      simp only [fcStepP]
      have hA : ¬(s ∈ (opAt sg.operators n).inputs ∧ na = true ∧ v = -1 ∧
          trigAt sg n) := by
        rintro ⟨_, _, hm1, _⟩
        have : ((n : Int) + 1) ≤ v := by push_cast at hv; omega
        omega
      rw [if_neg hA]
      by_cases hout : s ∈ (opAt sg.operators n).outputs
      · have hgt : v > (n : Int) := by push_cast at hv; omega
        rw [if_pos ⟨hout, Or.inr hgt⟩, if_pos hout]
      · rw [if_neg (fun h => hout h.1), if_neg hout]
    rw [hv1]
    by_cases hout : s ∈ (opAt sg.operators n).outputs
    · rw [if_pos hout, ih (n : Int) (le_refl _)]
      cases hm : minProdBelow sg.operators s n with
      | some m =>
        have h1 : minProdBelow sg.operators s (n + 1) = some m := by
          simp [minProdBelow, hm]
        rw [h1]
      | none =>
        have h1 : minProdBelow sg.operators s (n + 1) = some n := by
          simp [minProdBelow, hm, hout]
        rw [h1]
    · rw [if_neg hout, ih v (by push_cast at hv ⊢; omega)]
      have h1 : minProdBelow sg.operators s (n + 1)
          = minProdBelow sg.operators s n := by
        cases hm : minProdBelow sg.operators s n with
        | some m => simp [minProdBelow, hm]
        | none => simp [minProdBelow, hm, hout]
      rw [h1]

/-- Final `first_created` of a tensor that starts the reverse loop at `-1`:
the least producer index if one exists, otherwise the greatest workaround
site, otherwise `-1`. -/
def fcDerived (sg : SubGraph) (na : Bool) (s : Nat) (n : Nat) : Int :=
  match minProdBelow sg.operators s n with
  | some m => (m : Int)
  | none =>
    match maxWorkBelow sg na s n with
    | some w => (w : Int)
    | none => -1

theorem fcStepP_neg (sg : SubGraph) (na : Bool) (s n : Nat) :
    fcStepP sg na s n (-1) =
      if s ∈ (opAt sg.operators n).inputs ∧ na = true ∧ trigAt sg n
      then (n : Int)
      else if s ∈ (opAt sg.operators n).outputs then (n : Int)
      else (-1 : Int) := by
  show (if s ∈ (opAt sg.operators n).outputs ∧
      ((if s ∈ (opAt sg.operators n).inputs ∧ na = true ∧ (-1 : Int) = -1 ∧
          trigAt sg n then (n : Int) else -1) = -1 ∨
        (if s ∈ (opAt sg.operators n).inputs ∧ na = true ∧ (-1 : Int) = -1 ∧
          trigAt sg n then (n : Int) else -1) > (n : Int))
      then (n : Int)
      else (if s ∈ (opAt sg.operators n).inputs ∧ na = true ∧
        (-1 : Int) = -1 ∧ trigAt sg n then (n : Int) else -1)) = _
  by_cases hW : s ∈ (opAt sg.operators n).inputs ∧ na = true ∧ trigAt sg n
  · have hc1 : s ∈ (opAt sg.operators n).inputs ∧ na = true ∧
        (-1 : Int) = -1 ∧ trigAt sg n := ⟨hW.1, hW.2.1, rfl, hW.2.2⟩
    rw [if_pos hc1, if_pos hW, ite_self]
  · have hc1 : ¬(s ∈ (opAt sg.operators n).inputs ∧ na = true ∧
        (-1 : Int) = -1 ∧ trigAt sg n) := fun h => hW ⟨h.1, h.2.1, h.2.2.2⟩
    rw [if_neg hc1, if_neg hW]
    have hiff : (s ∈ (opAt sg.operators n).outputs ∧
        ((-1 : Int) = -1 ∨ (-1 : Int) > (n : Int)))
        ↔ s ∈ (opAt sg.operators n).outputs := by
      constructor
      · exact fun h => h.1
      · exact fun h => ⟨h, Or.inl rfl⟩
    rw [if_congr hiff rfl rfl]

theorem fcRun_neg (sg : SubGraph) (na : Bool) (s : Nat) :
    ∀ n, fcRun sg na s n (-1) = fcDerived sg na s n := by
  intro n
  induction n with
  | zero => rfl
  | succ n ih =>
    show fcRun sg na s n (fcStepP sg na s n (-1)) = _
    rw [fcStepP_neg]
    by_cases hW : s ∈ (opAt sg.operators n).inputs ∧ na = true ∧ trigAt sg n
    · rw [if_pos hW, fcRun_high sg na s n (n : Int) (le_refl _)]
      unfold fcDerived
      cases hm : minProdBelow sg.operators s n with
      | some m =>
        have h1 : minProdBelow sg.operators s (n + 1) = some m := by
          simp [minProdBelow, hm]
        rw [h1]
      | none =>
        by_cases hout : s ∈ (opAt sg.operators n).outputs
        · have h1 : minProdBelow sg.operators s (n + 1) = some n := by
            simp [minProdBelow, hm, hout]
          rw [h1]
        · have h1 : minProdBelow sg.operators s (n + 1) = none := by
            simp [minProdBelow, hm, hout]
          have h2 : maxWorkBelow sg na s (n + 1) = some n := by
            simp [maxWorkBelow, hW]
          rw [h1, h2]
    · rw [if_neg hW]
      by_cases hout : s ∈ (opAt sg.operators n).outputs
      · rw [if_pos hout, fcRun_high sg na s n (n : Int) (le_refl _)]
        unfold fcDerived
        cases hm : minProdBelow sg.operators s n with
        | some m =>
          have h1 : minProdBelow sg.operators s (n + 1) = some m := by
            simp [minProdBelow, hm]
          rw [h1]
        | none =>
          have h1 : minProdBelow sg.operators s (n + 1) = some n := by
            simp [minProdBelow, hm, hout]
          rw [h1]
      · rw [if_neg hout, ih]
        unfold fcDerived
        have h1 : minProdBelow sg.operators s (n + 1)
            = minProdBelow sg.operators s n := by
          cases hm : minProdBelow sg.operators s n with
          | some m => simp [minProdBelow, hm]
          | none => simp [minProdBelow, hm, hout]
        have h2 : maxWorkBelow sg na s (n + 1) = maxWorkBelow sg na s n := by
          simp [maxWorkBelow, hW]
        rw [h1, h2]

theorem luStepP_eq_max (sg : SubGraph) (s i : Nat) (v : Int) :
    luStepP sg s i v =
      if s ∈ (opAt sg.operators i).inputs then max v (i : Int) else v := by
  unfold luStepP
  by_cases hmem : s ∈ (opAt sg.operators i).inputs
  · rw [if_pos hmem, if_pos hmem, max_def]
    split_ifs <;> omega
  · rw [if_neg hmem, if_neg hmem]

theorem luRun_char (sg : SubGraph) (s : Nat) :
    ∀ n (v : Int), luRun sg s n v =
      (match maxConsBelow sg.operators s n with
       | some m => max v (m : Int)
       | none => v) := by
  intro n
  induction n with
  | zero => intro v; rfl
  | succ n ih =>
    intro v
    show luRun sg s n (luStepP sg s n v) = _
    rw [luStepP_eq_max]
    by_cases hmem : s ∈ (opAt sg.operators n).inputs
    · rw [if_pos hmem, ih (max v (n : Int))]
      have h1 : maxConsBelow sg.operators s (n + 1) = some n := by
        simp [maxConsBelow, hmem]
      rw [h1]
      cases hm : maxConsBelow sg.operators s n with
      | none => rfl
      | some m =>
        have hlt := maxConsBelow_lt sg.operators s n m hm
        show max (max v (n : Int)) (m : Int) = max v (n : Int)
        rw [max_assoc, max_eq_left (by omega : (m : Int) ≤ (n : Int))]
    · rw [if_neg hmem, ih v]
      have h1 : maxConsBelow sg.operators s (n + 1)
          = maxConsBelow sg.operators s n := by
        simp [maxConsBelow, hmem]
      rw [h1]

/-! ## Entry state of the reverse loop and the post-pass -/

/-- The `needs_allocating` value assigned by the first loop of `AddTensors`:
the eval tensor's data pointer is null and the tensor is not variable. -/
def naInit (sg : SubGraph) (eval : List TfLiteEvalTensor) (s : Nat) : Bool :=
  decide ((eval.getD s default).data = none) &&
    !(sg.tensors.getD s default).is_variable

theorem length_addTensorsInit (sg : SubGraph) (offline : Option (List Int))
    (eval : List TfLiteEvalTensor) :
    (addTensorsInit sg offline eval).length = sg.tensors.length := by
  simp [addTensorsInit]

theorem fcAt_addTensorsInit (sg : SubGraph) (offline : Option (List Int))
    (eval : List TfLiteEvalTensor) (s : Nat) :
    fcAt (addTensorsInit sg offline eval) s = -1 := by
  unfold fcAt
  by_cases hs : s < sg.tensors.length
  · rw [List.getD_eq_getElem _ _ (by simpa [addTensorsInit] using hs)]
    simp [addTensorsInit]
  · rw [List.getD_eq_default _ _
      (by simpa [addTensorsInit] using Nat.le_of_not_lt hs)]
    simp

theorem luAt_addTensorsInit (sg : SubGraph) (offline : Option (List Int))
    (eval : List TfLiteEvalTensor) (s : Nat) :
    luAt (addTensorsInit sg offline eval) s = -1 := by
  unfold luAt
  by_cases hs : s < sg.tensors.length
  · rw [List.getD_eq_getElem _ _ (by simpa [addTensorsInit] using hs)]
    simp [addTensorsInit]
  · rw [List.getD_eq_default _ _
      (by simpa [addTensorsInit] using Nat.le_of_not_lt hs)]
    simp

theorem naAt_addTensorsInit (sg : SubGraph) (offline : Option (List Int))
    (eval : List TfLiteEvalTensor) (s : Nat) (hs : s < sg.tensors.length) :
    naAt (addTensorsInit sg offline eval) s = naInit sg eval s := by
  unfold naAt
  rw [List.getD_eq_getElem _ _ (by simpa [addTensorsInit] using hs)]
  simp [addTensorsInit, naInit]

theorem fcAt_markInputs :
    ∀ (ins : List Nat) (info : List AllocationInfo) (s : Nat),
    fcAt (markInputs ins info) s =
      if s ∈ ins ∧ s < info.length then 0 else fcAt info s := by
  intro ins
  induction ins with
  | nil => intro info s; simp [markInputs]
  | cons t ts ih =>
    intro info s
    have hstep : markInputs (t :: ts) info
        = markInputs ts (updateAt info t (setFC 0)) := rfl
    rw [hstep, ih, length_updateAt]
    simp only [fcAt_updateAt_setFC]
    by_cases hst : s = t
    · subst hst
      by_cases hlt : s < info.length
      · simp [hlt]
      · simp [hlt]
    · simp only [if_neg (fun h : s = t ∧ t < info.length => hst h.1)]
      by_cases hmem : s ∈ ts
      · simp [hmem, hst]
      · simp [hmem, hst]

theorem luAt_markInputs :
    ∀ (ins : List Nat) (info : List AllocationInfo) (s : Nat),
    luAt (markInputs ins info) s = luAt info s := by
  intro ins
  induction ins with
  | nil => intro info s; rfl
  | cons t ts ih =>
    intro info s
    have hstep : markInputs (t :: ts) info
        = markInputs ts (updateAt info t (setFC 0)) := rfl
    rw [hstep, ih, luAt_updateAt_setFC]

theorem naAt_markInputs :
    ∀ (ins : List Nat) (info : List AllocationInfo) (s : Nat),
    naAt (markInputs ins info) s = naAt info s := by
  intro ins
  induction ins with
  | nil => intro info s; rfl
  | cons t ts ih =>
    intro info s
    have hstep : markInputs (t :: ts) info
        = markInputs ts (updateAt info t (setFC 0)) := rfl
    rw [hstep, ih, naAt_updateAt_setFC]

theorem length_markInputs :
    ∀ (ins : List Nat) (info : List AllocationInfo),
    (markInputs ins info).length = info.length := by
  intro ins
  induction ins with
  | nil => intro info; rfl
  | cons t ts ih =>
    intro info
    have hstep : markInputs (t :: ts) info
        = markInputs ts (updateAt info t (setFC 0)) := rfl
    rw [hstep, ih, length_updateAt]

theorem luAt_markOutputs (opCount : Nat) :
    ∀ (outs : List Nat) (info : List AllocationInfo) (s : Nat),
    luAt (markOutputs opCount outs info) s =
      if s ∈ outs ∧ s < info.length then (opCount : Int) - 1
      else luAt info s := by
  intro outs
  induction outs with
  | nil => intro info s; simp [markOutputs]
  | cons t ts ih =>
    intro info s
    have hstep : markOutputs opCount (t :: ts) info
        = markOutputs opCount ts (updateAt info t (setLU ((opCount : Int) - 1))) := rfl
    rw [hstep, ih, length_updateAt]
    simp only [luAt_updateAt_setLU]
    by_cases hst : s = t
    · subst hst
      by_cases hlt : s < info.length
      · simp [hlt]
      · simp [hlt]
    · simp only [if_neg (fun h : s = t ∧ t < info.length => hst h.1)]
      by_cases hmem : s ∈ ts
      · simp [hmem, hst]
      · simp [hmem, hst]

theorem fcAt_markOutputs (opCount : Nat) :
    ∀ (outs : List Nat) (info : List AllocationInfo) (s : Nat),
    fcAt (markOutputs opCount outs info) s = fcAt info s := by
  intro outs
  induction outs with
  | nil => intro info s; rfl
  | cons t ts ih =>
    intro info s
    have hstep : markOutputs opCount (t :: ts) info
        = markOutputs opCount ts (updateAt info t (setLU ((opCount : Int) - 1))) := rfl
    rw [hstep, ih, fcAt_updateAt_setLU]

theorem naAt_markOutputs (opCount : Nat) :
    ∀ (outs : List Nat) (info : List AllocationInfo) (s : Nat),
    naAt (markOutputs opCount outs info) s = naAt info s := by
  intro outs
  induction outs with
  | nil => intro info s; rfl
  | cons t ts ih =>
    intro info s
    have hstep : markOutputs opCount (t :: ts) info
        = markOutputs opCount ts (updateAt info t (setLU ((opCount : Int) - 1))) := rfl
    rw [hstep, ih, naAt_updateAt_setLU]

theorem length_markOutputs (opCount : Nat) :
    ∀ (outs : List Nat) (info : List AllocationInfo),
    (markOutputs opCount outs info).length = info.length := by
  intro outs
  induction outs with
  | nil => intro info; rfl
  | cons t ts ih =>
    intro info
    have hstep : markOutputs opCount (t :: ts) info
        = markOutputs opCount ts (updateAt info t (setLU ((opCount : Int) - 1))) := rfl
    rw [hstep, ih, length_updateAt]

theorem naAt_lifetimeLoopAux (ops : List FBOperator) :
    ∀ (n : Nat) (info : List AllocationInfo) (s : Nat),
    naAt (lifetimeLoopAux ops n info) s = naAt info s := by
  intro n
  induction n with
  | zero => intro info s; rfl
  | succ n ih =>
    intro info s
    show naAt (lifetimeLoopAux ops n (processOp ops n info)) s = naAt info s
    rw [ih, naAt_processOp]

theorem length_lifetimeLoopAux (ops : List FBOperator) :
    ∀ (n : Nat) (info : List AllocationInfo),
    (lifetimeLoopAux ops n info).length = info.length := by
  intro n
  induction n with
  | zero => intro info; rfl
  | succ n ih =>
    intro info
    show (lifetimeLoopAux ops n (processOp ops n info)).length = info.length
    rw [ih, length_processOp]

theorem clearReadOnly_fc (a : AllocationInfo) :
    (clearReadOnly a).first_created = a.first_created := by
  unfold clearReadOnly
  split <;> rfl

theorem clearReadOnly_lu (a : AllocationInfo) :
    (clearReadOnly a).last_used = a.last_used := by
  unfold clearReadOnly
  split <;> rfl

theorem postPassAux_ok :
    ∀ (l : List AllocationInfo) (idx : Nat) (out : List AllocationInfo),
    postPassAux idx l = .ok out → out = l.map clearReadOnly := by
  intro l
  induction l with
  | nil =>
    intro idx out h
    simp only [postPassAux] at h
    injection h with h'
    simp [h'.symm]
  | cons a rest ih =>
    intro idx out h
    simp only [postPassAux] at h
    split at h
    · exact absurd h (by simp)
    · cases hrest : postPassAux (idx + 1) rest with
      | error e => rw [hrest] at h; exact absurd h (by simp)
      | ok out' =>
        rw [hrest] at h
        injection h with h'
        rw [← h', List.map_cons, ih (idx + 1) out' hrest]

theorem fcAt_map_clearReadOnly (l : List AllocationInfo) (s : Nat) :
    fcAt (l.map clearReadOnly) s = fcAt l s := by
  unfold fcAt
  by_cases hs : s < l.length
  · rw [List.getD_eq_getElem _ _ (by simpa using hs),
      List.getD_eq_getElem _ _ hs]
    rw [List.getElem_map]
    exact clearReadOnly_fc _
  · rw [List.getD_eq_default _ _ (by simpa using Nat.le_of_not_lt hs),
      List.getD_eq_default _ _ (Nat.le_of_not_lt hs)]

theorem luAt_map_clearReadOnly (l : List AllocationInfo) (s : Nat) :
    luAt (l.map clearReadOnly) s = luAt l s := by
  unfold luAt
  by_cases hs : s < l.length
  · rw [List.getD_eq_getElem _ _ (by simpa using hs),
      List.getD_eq_getElem _ _ hs]
    rw [List.getElem_map]
    exact clearReadOnly_lu _
  · rw [List.getD_eq_default _ _ (by simpa using Nat.le_of_not_lt hs),
      List.getD_eq_default _ _ (Nat.le_of_not_lt hs)]

/-! ## Final lifetime characterization (claim C1) -/

/-- Final `first_created` computed by `AddTensors` for tensor `s`:
`0` for subgraph inputs; otherwise the least producer index; otherwise the
greatest workaround site; otherwise `-1`. -/
def fcFinal (sg : SubGraph) (eval : List TfLiteEvalTensor) (s : Nat) : Int :=
  if s ∈ sg.inputs then 0
  else fcDerived sg (naInit sg eval s) s sg.operators.length

/-- Final `last_used` computed by `AddTensors` for tensor `s`:
`operator_count - 1` for subgraph outputs; otherwise the greatest consumer
index; otherwise `-1`. -/
def luFinal (sg : SubGraph) (s : Nat) : Int :=
  if s ∈ sg.outputs then (sg.operators.length : Int) - 1
  else
    match maxConsBelow sg.operators s sg.operators.length with
    | some m => (m : Int)
    | none => -1

theorem deriveLifetimes_char (sg : SubGraph) (offline : Option (List Int))
    (eval : List TfLiteEvalTensor) (hwf : WFSubGraph sg) (s : Nat)
    (hs : s < sg.tensors.length) :
    fcAt (deriveLifetimes sg offline eval) s = fcFinal sg eval s ∧
    luAt (deriveLifetimes sg offline eval) s = luFinal sg s := by
  set info0 := markOutputs sg.operators.length sg.outputs
    (markInputs sg.inputs (addTensorsInit sg offline eval)) with hinfo0
  have hlen0 : info0.length = sg.tensors.length := by
    rw [hinfo0, length_markOutputs, length_markInputs, length_addTensorsInit]
  have hfc0 : ∀ x : Nat, fcAt info0 x =
      if x ∈ sg.inputs ∧ x < sg.tensors.length then 0 else -1 := by
    intro x
    rw [hinfo0, fcAt_markOutputs, fcAt_markInputs, length_addTensorsInit,
      fcAt_addTensorsInit]
  have hlu0 : ∀ x : Nat, luAt info0 x =
      if x ∈ sg.outputs ∧ x < sg.tensors.length
      then (sg.operators.length : Int) - 1 else -1 := by
    intro x
    rw [hinfo0, luAt_markOutputs, length_markInputs, length_addTensorsInit,
      luAt_markInputs, luAt_addTensorsInit]
  have hna0 : naAt info0 s = naInit sg eval s := by
    rw [hinfo0, naAt_markOutputs, naAt_markInputs,
      naAt_addTensorsInit sg offline eval s hs]
  have hin0 : ∀ t ∈ sg.inputs, fcAt info0 t = 0 := by
    intro t ht
    rw [hfc0 t, if_pos ⟨ht, hwf.1 t ht⟩]
  have hlow0 : ∀ x : Nat, x ∉ sg.inputs →
      fcAt info0 x = -1 ∨ (sg.operators.length : Int) ≤ fcAt info0 x := by
    intro x hx
    left
    rw [hfc0 x, if_neg (fun h => hx h.1)]
  have hsim := lifetimeLoopAux_sim sg hwf sg.operators.length (le_refl _)
    info0 hlen0 hin0 hlow0 s
  have hderive : deriveLifetimes sg offline eval
      = lifetimeLoopAux sg.operators sg.operators.length info0 := rfl
  constructor
  · rw [hderive, hsim.1, hna0]
    by_cases hmem : s ∈ sg.inputs
    · rw [hfc0 s, if_pos ⟨hmem, hs⟩, fcRun_zero]
      unfold fcFinal
      rw [if_pos hmem]
    · rw [hfc0 s, if_neg (fun h => hmem h.1), fcRun_neg]
      unfold fcFinal
      rw [if_neg hmem]
  · rw [hderive, hsim.2, luRun_char]
    by_cases hmem : s ∈ sg.outputs
    · rw [hlu0 s, if_pos ⟨hmem, hs⟩]
      unfold luFinal
      rw [if_pos hmem]
      cases hm : maxConsBelow sg.operators s sg.operators.length with
      | none => rfl
      | some m =>
        have hlt := maxConsBelow_lt sg.operators s _ m hm
        show max ((sg.operators.length : Int) - 1) (m : Int) = _
        rw [max_eq_left (by omega : (m : Int) ≤ (sg.operators.length : Int) - 1)]
    · rw [hlu0 s, if_neg (fun h => hmem h.1)]
      unfold luFinal
      rw [if_neg hmem]
      cases hm : maxConsBelow sg.operators s sg.operators.length with
      | none => rfl
      | some m =>
        show max (-1 : Int) (m : Int) = (m : Int)
        rw [max_eq_right (by omega : (-1 : Int) ≤ (m : Int))]

/-- Claim C1 (amended): after a successful `AddTensors`, every subgraph
input tensor has `first_created = 0` and every subgraph output tensor has
`last_used = operator_count - 1`; `last_used` ends as the greatest operator
index consuming the tensor (`maxConsBelow`, `-1` when none); and
`first_created` ends as the least operator index producing the tensor
(`minProdBelow`), except that a tensor with no producer that is consumed by
an operator one of whose inputs is a subgraph input — with
`needs_allocating` set — receives the greatest such operator index instead
(`maxWorkBelow`, the source's `TODO(b/166484865)` workaround), and `-1`
when neither exists. -/
theorem c1_lifetimes_amended (sg : SubGraph) (offline : Option (List Int))
    (eval : List TfLiteEvalTensor) (info : List AllocationInfo)
    (hwf : WFSubGraph sg)
    (hok : addTensors sg offline eval = .ok info) (s : Nat)
    (hs : s < sg.tensors.length) :
    (s ∈ sg.inputs → fcAt info s = 0) ∧
    (s ∈ sg.outputs → luAt info s = (sg.operators.length : Int) - 1) ∧
    fcAt info s = fcFinal sg eval s ∧
    luAt info s = luFinal sg s := by
  have hmap : info = (deriveLifetimes sg offline eval).map clearReadOnly :=
    postPassAux_ok _ 0 info hok
  have hchar := deriveLifetimes_char sg offline eval hwf s hs
  have hfc : fcAt info s = fcFinal sg eval s := by
    rw [hmap, fcAt_map_clearReadOnly, hchar.1]
  have hlu : luAt info s = luFinal sg s := by
    rw [hmap, luAt_map_clearReadOnly, hchar.2]
  refine ⟨?_, ?_, hfc, hlu⟩
  · intro hmem
    rw [hfc]
    unfold fcFinal
    rw [if_pos hmem]
  · intro hmem
    rw [hlu]
    unfold luFinal
    rw [if_pos hmem]

/-- Decidable equality for `Except`, needed to `decide` concrete runs. -/
instance {e a : Type} [DecidableEq e] [DecidableEq a] :
    DecidableEq (Except e a)
  | .error x, .error y =>
    if h : x = y then isTrue (congrArg Except.error h)
    else isFalse (fun hc => h (Except.error.inj hc))
  | .error _, .ok _ => isFalse (fun hc => Except.noConfusion hc)
  | .ok _, .error _ => isFalse (fun hc => Except.noConfusion hc)
  | .ok x, .ok y =>
    if h : x = y then isTrue (congrArg Except.ok h)
    else isFalse (fun hc => h (Except.ok.inj hc))

/-! ## Concrete subgraphs used as witnesses and counterexamples -/

/-- Three tensors; one operator consuming `t0` (the subgraph input) and
`t1` (serialized-constant-free, produced by nobody), producing `t2`.
This exercises the workaround: `t1` has no producer, yet the code gives it
`first_created = 0`. -/
def sgWorkaround : SubGraph :=
  { tensors := [{ bytes := 16 }, { bytes := 16 }, { bytes := 16 }]
    inputs := [0]
    outputs := [2]
    operators := [{ inputs := [0, 1], outputs := [2] }] }

/-- Eval tensors for `sgWorkaround`: all data pointers null. -/
def evalWorkaround : List TfLiteEvalTensor :=
  [{ bytes := 16 }, { bytes := 16 }, { bytes := 16 }]

/-- Linear chain `t0 → op0 → t1 → op1 → t2 → op2 → t3` (the spec's
"Linear chain" scenario). -/
def sgChain : SubGraph :=
  { tensors := [{ bytes := 100 }, { bytes := 200 }, { bytes := 150 },
      { bytes := 100 }]
    inputs := [0]
    outputs := [3]
    operators := [{ inputs := [0], outputs := [1] },
      { inputs := [1], outputs := [2] }, { inputs := [2], outputs := [3] }] }

/-- Eval tensors for `sgChain`: all data pointers null. -/
def evalChain : List TfLiteEvalTensor :=
  [{ bytes := 100 }, { bytes := 200 }, { bytes := 150 }, { bytes := 100 }]

/-- The `AllocationInfo` array `AddTensors` computes for `sgChain`. -/
def chainInfo : List AllocationInfo :=
  [{ bytes := 100, first_created := 0, last_used := 0, offline_offset := -1,
      needs_allocating := true },
   { bytes := 200, first_created := 0, last_used := 1, offline_offset := -1,
      needs_allocating := true },
   { bytes := 150, first_created := 1, last_used := 2, offline_offset := -1,
      needs_allocating := true },
   { bytes := 100, first_created := 2, last_used := 2, offline_offset := -1,
      needs_allocating := true }]

/-- The lifetime characterization claim C1 states, with no workaround:
`first_created` is `0` for subgraph inputs and otherwise the least operator
index producing the tensor (`-1` when there is none). -/
def fcClaimed (sg : SubGraph) (s : Nat) : Int :=
  if s ∈ sg.inputs then 0
  else
    match minProdBelow sg.operators s sg.operators.length with
    | some m => (m : Int)
    | none => -1

/-- Claim C1 as stated is false: on `sgWorkaround`, tensor 1 is not a
subgraph input and no operator produces it, so by the claim its
`first_created` should end `-1` (and the tensor would then be dropped as
read-only); the code's workaround instead sets `first_created = 0` and
keeps `needs_allocating`. -/
theorem c1_counterexample :
    addTensors sgWorkaround none evalWorkaround =
      .ok [{ bytes := 16, first_created := 0, last_used := 0,
              offline_offset := -1, needs_allocating := true },
           { bytes := 16, first_created := 0, last_used := 0,
              offline_offset := -1, needs_allocating := true },
           { bytes := 16, first_created := 0, last_used := 0,
              offline_offset := -1, needs_allocating := true }] ∧
    1 ∉ sgWorkaround.inputs ∧
    minProdBelow sgWorkaround.operators 1 sgWorkaround.operators.length
      = none ∧
    fcClaimed sgWorkaround 1 = -1 ∧
    fcAt ((addTensors sgWorkaround none evalWorkaround).toOption.getD []) 1
      = 0 := by
  refine ⟨by decide, by decide, by decide, by decide, by decide⟩

/-- Witness for `c1_lifetimes_amended` at `sgChain`, tensor 2. -/
theorem c1_lifetimes_amended_witness :
    (2 ∈ sgChain.inputs → fcAt chainInfo 2 = 0) ∧
    (2 ∈ sgChain.outputs →
      luAt chainInfo 2 = (sgChain.operators.length : Int) - 1) ∧
    fcAt chainInfo 2 = fcFinal sgChain evalChain 2 ∧
    luAt chainInfo 2 = luFinal sgChain 2 :=
  c1_lifetimes_amended sgChain none evalChain chainInfo (by decide)
    (by decide) 2 (by decide)

/-! ## The post-pass characterization (claim C2) -/

theorem postPassAux_error_spec :
    ∀ (l : List AllocationInfo) (idx j : Nat) (f u : Int),
    postPassAux idx l = .error (j, f, u) →
    idx ≤ j ∧ j - idx < l.length ∧
    isInvalidLifetime (l.getD (j - idx) default) ∧
    f = (l.getD (j - idx) default).first_created ∧
    u = (l.getD (j - idx) default).last_used ∧
    (∀ k, k < j - idx → ¬isInvalidLifetime (l.getD k default)) := by
  intro l
  induction l with
  | nil =>
    intro idx j f u h
    simp [postPassAux] at h
  | cons a rest ih =>
    intro idx j f u h
    simp only [postPassAux] at h
    split at h
    · rename_i hinv
      injection h with h'
      have hj : idx = j ∧ a.first_created = f ∧ a.last_used = u := by
        have h1 := congrArg Prod.fst h'
        have h2 := congrArg (fun p => p.2.1) h'
        have h3 := congrArg (fun p => p.2.2) h'
        exact ⟨h1, h2, h3⟩
      refine ⟨by omega, ?_, ?_, ?_, ?_, ?_⟩
      · have : j - idx = 0 := by omega
        simp [this]
      · have h0 : j - idx = 0 := by omega
        rw [h0]
        simpa using hinv
      · have h0 : j - idx = 0 := by omega
        rw [h0]
        simpa using hj.2.1.symm
      · have h0 : j - idx = 0 := by omega
        rw [h0]
        simpa using hj.2.2.symm
      · intro k hk
        omega
    · rename_i hinv
      cases hrest : postPassAux (idx + 1) rest with
      | ok out => rw [hrest] at h; exact absurd h (by simp)
      | error e =>
        rw [hrest] at h
        injection h with h'
        rw [h'] at hrest
        have := ih (idx + 1) j f u hrest
        obtain ⟨hle, hlt, hbad, hf, hu, hmin⟩ := this
        have hji : j - idx = (j - (idx + 1)) + 1 := by omega
        refine ⟨by omega, by simp; omega, ?_, ?_, ?_, ?_⟩
        · rw [hji, List.getD_cons_succ]
          exact hbad
        · rw [hji, List.getD_cons_succ]
          exact hf
        · rw [hji, List.getD_cons_succ]
          exact hu
        · intro k hk
          cases k with
          | zero => simpa using hinv
          | succ k' =>
            rw [List.getD_cons_succ]
            exact hmin k' (by omega)

theorem postPassAux_isOk_iff :
    ∀ (l : List AllocationInfo) (idx : Nat),
    (∃ out, postPassAux idx l = .ok out) ↔
      ∀ a ∈ l, ¬isInvalidLifetime a := by
  intro l
  induction l with
  | nil =>
    intro idx
    constructor
    · intro _ a ha
      simp at ha
    · intro _
      exact ⟨[], rfl⟩
  | cons a rest ih =>
    intro idx
    simp only [postPassAux]
    split
    · rename_i hinv
      constructor
      · rintro ⟨out, hout⟩
        exact absurd hout (by simp)
      · intro hall
        exact absurd hinv (hall a (List.mem_cons_self a rest))
    · rename_i hinv
      cases hrest : postPassAux (idx + 1) rest with
      | error e =>
        constructor
        · rintro ⟨out, hout⟩
          exact absurd hout (by simp)
        · intro hall
          have : ∃ out, postPassAux (idx + 1) rest = .ok out :=
            (ih (idx + 1)).mpr (fun x hx => hall x (List.mem_cons_of_mem _ hx))
          obtain ⟨out, hout⟩ := this
          rw [hout] at hrest
          exact absurd hrest (by simp)
      | ok out =>
        constructor
        · intro _
          intro x hx
          rcases List.mem_cons.mp hx with rfl | hx'
          · exact hinv
          · exact ((ih (idx + 1)).mp ⟨out, hrest⟩) x hx'
        · intro _
          exact ⟨clearReadOnly a :: out, rfl⟩

/-- Claim C2 (amended): the post-pass of `AddTensors` clears
`needs_allocating` for every read-only tensor
(`first_created = -1`, `last_used ≠ -1`); it returns an error naming the
first offending tensor index and its two lifetime values whenever some
tensor is not read-only, still has `needs_allocating` set, and has at least
one of `first_created` / `last_used` equal to `-1` (this includes a tensor
with both equal to `-1`, not only "exactly one"); when no such tensor
exists it returns ok. -/
theorem c2_postpass_amended (sg : SubGraph) (offline : Option (List Int))
    (eval : List TfLiteEvalTensor) :
    ((∃ out, addTensors sg offline eval = .ok out) ↔
      ∀ a ∈ deriveLifetimes sg offline eval, ¬isInvalidLifetime a) ∧
    (∀ out, addTensors sg offline eval = .ok out →
      out = (deriveLifetimes sg offline eval).map clearReadOnly) ∧
    (∀ j f u, addTensors sg offline eval = .error (j, f, u) →
      j < (deriveLifetimes sg offline eval).length ∧
      isInvalidLifetime ((deriveLifetimes sg offline eval).getD j default) ∧
      f = ((deriveLifetimes sg offline eval).getD j default).first_created ∧
      u = ((deriveLifetimes sg offline eval).getD j default).last_used ∧
      (∀ k, k < j →
        ¬isInvalidLifetime ((deriveLifetimes sg offline eval).getD k default))) := by
  refine ⟨postPassAux_isOk_iff _ 0, fun out hout => postPassAux_ok _ 0 out hout,
    ?_⟩
  intro j f u herr
  have := postPassAux_error_spec (deriveLifetimes sg offline eval) 0 j f u herr
  simpa using this

/-- Three tensors with `t1` totally unused (null data, not variable):
its entry ends with `first_created = last_used = -1` and
`needs_allocating`. -/
def sgUnused : SubGraph :=
  { tensors := [{ bytes := 16 }, { bytes := 16 }]
    inputs := [0]
    outputs := [0]
    operators := [{ inputs := [0], outputs := [0] }] }

/-- Eval tensors for `sgUnused`: all data pointers null. -/
def evalUnused : List TfLiteEvalTensor := [{ bytes := 16 }, { bytes := 16 }]

/-- The condition claim C2 states: exactly one of the two lifetime ends is
`-1`. -/
def exactlyOnePartial (a : AllocationInfo) : Prop :=
  (a.first_created = -1 ∧ a.last_used ≠ -1) ∨
    (a.first_created ≠ -1 ∧ a.last_used = -1)

instance (a : AllocationInfo) : Decidable (exactlyOnePartial a) := by
  unfold exactlyOnePartial; infer_instance

/-- Claim C2 as stated is false: on `sgUnused` no tensor has *exactly one*
lifetime end equal to `-1` with `needs_allocating` outside the read-only
case (tensor 1 has both ends `-1`), so by the claim `AddTensors` should
return ok; the code returns the "invalid lifetime" error for tensor 1. -/
theorem c2_counterexample :
    addTensors sgUnused none evalUnused = .error (1, -1, -1) ∧
    (∀ a ∈ deriveLifetimes sgUnused none evalUnused,
      ¬(exactlyOnePartial a ∧ a.needs_allocating = true ∧ ¬isReadOnly a)) := by
  refine ⟨by decide, by decide⟩

/-- Witness for `c2_postpass_amended` at `sgChain`. -/
theorem c2_postpass_amended_witness :
    chainInfo = (deriveLifetimes sgChain none evalChain).map clearReadOnly :=
  (c2_postpass_amended sgChain none evalChain).2.1 chainInfo (by decide)

/-! ## The allocation coordinator (`MicroAllocator`) -/

/-- Error kinds reported by the coordinator; payloads model the values the
corresponding `TF_LITE_REPORT_ERROR` messages carry. -/
inductive AllocErr
  | protocolMisuse
  | badSubgraphCount
  | allocFailed (bytes : Nat)
  | nodeTableAllocFailed
  | tensorInitFailed
  | missingOpcode
  | missingRegistration
  | customOptionsOnBuiltin
  | missingParser
  | parseFailed
  | offlineCountMismatch (nbrOffsets nbrTensors : Nat)
  | invalidLifetime (idx : Nat) (fc lu : Int)
  | plannerArenaFailed
  | plannerFailed
  | arenaTooSmall (needed available : Nat)
  | commitFailed
  | headResizeFailed
  | variableAllocFailed (bytes : Nat)
deriving Repr, DecidableEq

/-- Observable state of a `MicroAllocator`: the arena allocator, the
allocation-in-progress flag, and the scratch-buffer registry (count, handle
records, and the address of the handle table — `none` models a null
`scratch_buffer_handles_`). -/
structure MicroAllocatorState where
  allocator : SimpleMemoryAllocator
  model_is_allocating : Bool := false
  scratch_buffer_count : Nat := 0
  scratch_buffer_handles : List ScratchBufferHandle := []
  scratch_handles_base : Option Nat := none
deriving Repr, DecidableEq

/-- `MicroAllocator::RequestScratchBufferInArena`: grow the head region to
hold one more handle, append the handle (bytes and owning node recorded,
data null) in the head region, and return the next consecutive index. -/
def requestScratchBufferInArena (st : MicroAllocatorState) (node_id : Int)
    (bytes : Nat) : Except AllocErr (Nat × MicroAllocatorState) :=
  match st.allocator.ensureHeadSize
      (sizeofScratchBufferHandle * (st.scratch_buffer_count + 1))
      alignofRecord with
  | none => .error .headResizeFailed
  | some a' =>
    .ok (st.scratch_buffer_count,
      { st with
        allocator := a'
        scratch_handles_base := some (a'.getBufferHead)
        scratch_buffer_handles := st.scratch_buffer_handles ++
          [{ bytes := bytes, node_idx := node_id, data := none }]
        scratch_buffer_count := st.scratch_buffer_count + 1 })

/-- Result of `MoveScratchBufferHandlesToTail`.  The C function returns
`kTfLiteOk` unconditionally; `wroteThroughNull` records that the copy loop
wrote through a null destination pointer (the source has no null check on
the tail allocation). -/
structure MoveResult where
  status : Except AllocErr Unit
  state : MicroAllocatorState
  wroteThroughNull : Bool
deriving Repr, DecidableEq

/-- `MicroAllocator::MoveScratchBufferHandlesToTail`: no-op when no scratch
buffer was requested; otherwise tail-allocate a permanent copy of the
handle table and repoint `scratch_buffer_handles_` at it.  The source does
not check the tail allocation for null: on exhaustion the copy loop writes
through the null pointer and the function still returns ok. -/
def moveScratchBufferHandlesToTail (st : MicroAllocatorState) : MoveResult :=
  if st.scratch_buffer_count = 0 then ⟨.ok (), st, false⟩
  else
    match st.allocator.allocateFromTail
        (sizeofScratchBufferHandle * st.scratch_buffer_count)
        alignofRecord with
    | none => ⟨.ok (), { st with scratch_handles_base := none }, true⟩
    | some (p, a') =>
      ⟨.ok (), { st with allocator := a', scratch_handles_base := some p },
        false⟩

/-- Write the data pointer of an eval tensor. -/
def setEvalData (p : Option Int) (t : TfLiteEvalTensor) : TfLiteEvalTensor :=
  { t with data := p }

/-- Loop body of `MicroAllocator::AllocateVariables` over the given tensor
indices: every `is_variable` tensor gets a fresh tail allocation of its
byte length as data pointer; a null return is an error. -/
def allocVarsGo (sg : SubGraph) :
    List Nat → List TfLiteEvalTensor → SimpleMemoryAllocator →
    Except AllocErr (List TfLiteEvalTensor × SimpleMemoryAllocator)
  | [], eval, a => .ok (eval, a)
  | i :: rest, eval, a =>
    if (sg.tensors.getD i default).is_variable then
      match a.allocateFromTail (eval.getD i default).bytes
          kBufferAlignment with
      | none => .error (.variableAllocFailed (eval.getD i default).bytes)
      | some (p, a') =>
        allocVarsGo sg rest (updateAt eval i (setEvalData (some (p : Int)))) a'
    else allocVarsGo sg rest eval a

/-- `MicroAllocator::AllocateVariables`. -/
def allocateVariables (sg : SubGraph) (eval : List TfLiteEvalTensor)
    (a : SimpleMemoryAllocator) :
    Except AllocErr (List TfLiteEvalTensor × SimpleMemoryAllocator) :=
  allocVarsGo sg (List.range sg.tensors.length) eval a

/-- Per-tensor loop of `MicroAllocator::AllocateTfLiteEvalTensors`. -/
def initEvalTensors (le : Bool) (buffers : List FBBuffer) :
    List FBTensor → SimpleMemoryAllocator →
    Except AllocErr (List TfLiteEvalTensor × SimpleMemoryAllocator)
  | [], a => .ok ([], a)
  | t :: ts, a =>
    match initEvalTensorFromFlatbuffer le a t buffers with
    | .error _ => .error .tensorInitFailed
    | .ok (et, a') =>
      match initEvalTensors le buffers ts a' with
      | .error e => .error e
      | .ok (rest, a'') => .ok (et :: rest, a'')

/-- `MicroAllocator::AllocateTfLiteEvalTensors`: tail-allocate the eval
tensor table (reporting the byte count on a null return), then initialize
each tensor from the flatbuffer. -/
def allocateTfLiteEvalTensors (le : Bool) (a : SimpleMemoryAllocator)
    (model : Model) (sg : SubGraph) :
    Except AllocErr (List TfLiteEvalTensor × SimpleMemoryAllocator) :=
  match a.allocateFromTail (sizeofTfLiteEvalTensor * sg.tensors.length)
      alignofRecord with
  | none => .error (.allocFailed (sizeofTfLiteEvalTensor * sg.tensors.length))
  | some (_, a1) => initEvalTensors le model.buffers sg.tensors a1

/-- The value of `BuiltinOperator_CUSTOM` in the schema (modelled from the
spec; the schema enum is outside src/). -/
def BuiltinOperatorCustom : Int := 32

/-- Modelled from the spec: the opcode-to-kernel resolver and the builtin
parameter parsers are external collaborators; this oracle answers the three
queries the coordinator makes of them. -/
structure MicroOpResolverModel where
  hasRegistration : Int → Bool
  hasParser : Int → Bool
  parseOk : Int → Bool

/-- Runtime operator node, restricted to the fields the allocator writes
(parser-produced builtin data is carried as a flag; its contents are
external). -/
structure TfLiteNode where
  inputs : DimsRef
  outputs : DimsRef
  has_builtin_data : Bool
  custom_data : Option (List Int)
deriving Repr, DecidableEq

/-- `MicroAllocator::AllocateNodeAndRegistrations`: tail-allocate the node
table (the source's error message for this site reports no byte count). -/
def allocateNodeAndRegistrations (sg : SubGraph) (a : SimpleMemoryAllocator) :
    Except AllocErr (Nat × SimpleMemoryAllocator) :=
  match a.allocateFromTail
      (sizeofNodeAndRegistration * sg.operators.length) alignofRecord with
  | none => .error .nodeTableAllocFailed
  | some (p, a') => .ok (p, a')

/-- `MicroAllocator::PrepareNodeAndRegistrationDataFromFlatbuffer`, one
operator at a time: opcode lookup, registration lookup, the
custom-options-on-builtin check, builtin parameter parsing (through the
resolver oracle), and the conversion of the input/output index arrays. -/
def prepareNodes (le : Bool) (resolver : MicroOpResolverModel)
    (model : Model) :
    List FBOperator → SimpleMemoryAllocator →
    Except AllocErr (List TfLiteNode × SimpleMemoryAllocator)
  | [], a => .ok ([], a)
  | op :: rest, a =>
    if op.opcode_index < model.operator_codes.length then
      let opcode := model.operator_codes.getD op.opcode_index default
      if resolver.hasRegistration opcode.builtin_code then
        let isCustom := opcode.builtin_code = BuiltinOperatorCustom
        if ¬isCustom ∧ op.custom_options ≠ none then
          .error .customOptionsOnBuiltin
        else if ¬isCustom ∧ resolver.hasParser opcode.builtin_code = false then
          .error .missingParser
        else if ¬isCustom ∧ resolver.parseOk opcode.builtin_code = false then
          .error .parseFailed
        else
          match flatBufferVectorToTfLiteTypeArray le a
              (op.inputs.map fun n => (n : Int)) with
          | .error _ => .error .parseFailed
          | .ok (ins, a1) =>
            match flatBufferVectorToTfLiteTypeArray le a1
                (op.outputs.map fun n => (n : Int)) with
            | .error _ => .error .parseFailed
            | .ok (outs, a2) =>
              match prepareNodes le resolver model rest a2 with
              | .error e => .error e
              | .ok (nodes, a3) =>
                .ok ({ inputs := ins, outputs := outs,
                       has_builtin_data :=
                        decide (opcode.builtin_code ≠ BuiltinOperatorCustom),
                       custom_data :=
                        if opcode.builtin_code = BuiltinOperatorCustom
                        then op.custom_options else none } :: nodes, a3)
      else .error .missingRegistration
    else .error .missingOpcode

/-- Result of `StartModelAllocation`. -/
structure StartResult where
  status : Except AllocErr Unit
  state : MicroAllocatorState
  eval : Option (List TfLiteEvalTensor)
  nodes : Option (List TfLiteNode)

/-- `MicroAllocator::StartModelAllocation`: refuse when a model allocation
is already in progress (before touching any state); otherwise set the flag,
reset the scratch registry, and materialize eval tensors and operator
nodes.  On a failure after the guard the flag stays set, as in the source
(cancellation is not supported). -/
def startModelAllocation (le : Bool) (resolver : MicroOpResolverModel)
    (st : MicroAllocatorState) (model : Model) : StartResult :=
  if st.model_is_allocating then ⟨.error .protocolMisuse, st, none, none⟩
  else
    let st1 := { st with
      model_is_allocating := true
      scratch_buffer_count := 0
      scratch_buffer_handles := []
      scratch_handles_base := none }
    match model.subgraphs with
    | [sg] =>
      match allocateTfLiteEvalTensors le st1.allocator model sg with
      | .error e => ⟨.error e, st1, none, none⟩
      | .ok (eval, a2) =>
        match allocateNodeAndRegistrations sg a2 with
        | .error e => ⟨.error e, { st1 with allocator := a2 }, some eval, none⟩
        | .ok (_, a3) =>
          match prepareNodes le resolver model sg.operators a3 with
          | .error e =>
            ⟨.error e, { st1 with allocator := a3 }, some eval, none⟩
          | .ok (nodes, a4) =>
            ⟨.ok (), { st1 with allocator := a4 }, some eval, some nodes⟩
    | _ => ⟨.error .badSubgraphCount, st1, none, none⟩

/-! ## Memory planning and commit -/

/-- One buffer record handed to the planner by `CreatePlan`: 16-byte
aligned size, lifetime, and the offline offset when the buffer is not
online-planned. -/
structure PlanBuf where
  bytes : Nat
  first_created : Int
  last_used : Int
  offline_offset : Option Int
deriving Repr, DecidableEq

/-- `CreatePlan`: add one buffer per `needs_allocating` entry, with the
size aligned up to `kBufferAlignment`, choosing the offline-offset overload
when the entry's offset is not the online sentinel. -/
def createPlanRequests (infos : List AllocationInfo) : List PlanBuf :=
  infos.filterMap fun cur =>
    if cur.needs_allocating then
      some { bytes := alignUp cur.bytes kBufferAlignment
             first_created := cur.first_created
             last_used := cur.last_used
             offline_offset :=
               if cur.offline_offset = kOnlinePlannedBuffer then none
               else some cur.offline_offset }
    else none

/-- Modelled from the spec: the greedy interval-packing planner lives
outside src/ (greedy_memory_planner.cc).  The oracle maps the sequence of
added buffers to either a planner failure (`AddBuffer` erring) or to the
planner's maximum memory size together with `GetOffsetForBuffer`. -/
structure PlannerModel where
  plan : List PlanBuf → Except Unit (Nat × (Nat → Except Unit Int))

/-- `CommitPlan`'s offset collection: walk the entries, querying the
planner with consecutive indices for exactly the `needs_allocating` ones. -/
def planOffsets (getOff : Nat → Except Unit Int) :
    List AllocationInfo → Nat → Except AllocErr (List (Option Int))
  | [], _ => .ok []
  | cur :: rest, pidx =>
    if cur.needs_allocating then
      match getOff pidx with
      | .error _ => .error .commitFailed
      | .ok off =>
        match planOffsets getOff rest (pidx + 1) with
        | .error e => .error e
        | .ok offs => .ok (some off :: offs)
    else
      match planOffsets getOff rest pidx with
      | .error e => .error e
      | .ok offs => .ok (none :: offs)

/-- Write the committed addresses (`starting_point + offset`) through the
tensor entries' output pointers. -/
def applyOffsetsEval (startPt : Int) (eval : List TfLiteEvalTensor)
    (offs : List (Option Int)) : List TfLiteEvalTensor :=
  List.zipWith (fun t o =>
    match o with
    | some off => { t with data := some (startPt + off) }
    | none => t) eval offs

/-- Write the committed addresses through the scratch entries' output
pointers (the `data` field of the handles). -/
def applyOffsetsHandles (startPt : Int) (handles : List ScratchBufferHandle)
    (offs : List (Option Int)) : List ScratchBufferHandle :=
  List.zipWith (fun h o =>
    match o with
    | some off => { h with data := some (startPt + off) }
    | none => h) handles offs

/-- The `AllocationInfoBuilder` sequence inside `CommitStaticMemoryPlan`:
offline offsets, tensor entries, scratch entries. -/
def buildAllocationInfo (st : MicroAllocatorState) (sg : SubGraph)
    (model : Model) (eval : List TfLiteEvalTensor) :
    Except AllocErr (List AllocationInfo) :=
  match getOfflinePlannedOffsets sg.tensors.length model with
  | .error (nbr, tc) => .error (.offlineCountMismatch nbr tc)
  | .ok offline =>
    match addTensors sg offline eval with
    | .error (j, f, u) => .error (.invalidLifetime j f u)
    | .ok tensorInfo =>
      .ok (tensorInfo ++ addScratchBuffers st.scratch_buffer_handles)

/-- `MicroAllocator::CommitStaticMemoryPlan`: build the allocation info in
a temporary sub-arena over `[buffer_head, tail)`, run the planner in the
remaining temp space, fail with needed-vs-available when the planned
footprint exceeds the arena's available memory, otherwise write every
planned pointer (`GetBufferHead() + offset`) and grow the head region to
the planned footprint. -/
def commitStaticMemoryPlan (planner : PlannerModel)
    (st : MicroAllocatorState) (model : Model) (sg : SubGraph)
    (eval : List TfLiteEvalTensor) :
    Except AllocErr (MicroAllocatorState × List TfLiteEvalTensor) :=
  let tmpA : SimpleMemoryAllocator :=
    { size := st.allocator.tail, head := 0, tail := st.allocator.tail,
      temp := 0 }
  match tmpA.allocateFromTail
      (sizeofAllocationInfo *
        (sg.tensors.length + st.scratch_buffer_count)) alignofRecord with
  | none => .error (.allocFailed (sizeofAllocationInfo *
      (sg.tensors.length + st.scratch_buffer_count)))
  | some (_, tmpA1) =>
    match buildAllocationInfo st sg model eval with
    | .error e => .error e
    | .ok infos =>
      match tmpA1.allocateTemp (tmpA1.getAvailableMemory kBufferAlignment)
          kBufferAlignment with
      | none => .error .plannerArenaFailed
      | some _ =>
        match planner.plan (createPlanRequests infos) with
        | .error _ => .error .plannerFailed
        | .ok (maxSize, getOff) =>
          if maxSize > st.allocator.getAvailableMemory kBufferAlignment then
            .error (.arenaTooSmall maxSize
              (st.allocator.getAvailableMemory kBufferAlignment))
          else
            match planOffsets getOff infos 0 with
            | .error e => .error e
            | .ok offs =>
              match st.allocator.ensureHeadSize maxSize kBufferAlignment with
              | none => .error .headResizeFailed
              | some a' =>
                .ok ({ st with
                        allocator := a'
                        scratch_buffer_handles := applyOffsetsHandles
                          ((st.allocator.getBufferHead : Nat) : Int)
                          st.scratch_buffer_handles
                          (offs.drop sg.tensors.length) },
                  applyOffsetsEval
                    ((st.allocator.getBufferHead : Nat) : Int) eval
                    (offs.take sg.tensors.length))

/-- The steps `FinishModelAllocation` performs, in execution order. -/
inductive FinishStep
  | moveScratch
  | commitPlan
  | allocVars
deriving Repr, DecidableEq

/-- Result of `FinishModelAllocation`, with the executed step sequence. -/
structure FinishResult where
  status : Except AllocErr Unit
  state : MicroAllocatorState
  eval : List TfLiteEvalTensor
  trace : List FinishStep
deriving Repr, DecidableEq

/-- `MicroAllocator::FinishModelAllocation`: refuse when no allocation is
in progress (before touching any state); otherwise move the scratch handles
to the tail, commit the static memory plan, allocate variable-tensor
storage and clear the allocating flag. -/
def finishModelAllocation (planner : PlannerModel)
    (st : MicroAllocatorState) (model : Model)
    (eval : List TfLiteEvalTensor) : FinishResult :=
  if st.model_is_allocating = false then ⟨.error .protocolMisuse, st, eval, []⟩
  else
    match model.subgraphs with
    | [sg] =>
      let mv := moveScratchBufferHandlesToTail st
      match commitStaticMemoryPlan planner mv.state model sg eval with
      | .error e => ⟨.error e, mv.state, eval, [.moveScratch, .commitPlan]⟩
      | .ok (st2, eval2) =>
        match allocateVariables sg eval2 st2.allocator with
        | .error e =>
          ⟨.error e, st2, eval2, [.moveScratch, .commitPlan, .allocVars]⟩
        | .ok (eval3, a3) =>
          ⟨.ok (), { st2 with allocator := a3, model_is_allocating := false },
            eval3, [.moveScratch, .commitPlan, .allocVars]⟩
    | _ => ⟨.error .badSubgraphCount, st, eval, []⟩

/-- `MicroAllocator::GetScratchBuffer`: constant-time lookup of a handle's
data pointer. -/
def getScratchBuffer (handles : List ScratchBufferHandle) (idx : Nat) :
    Option Int :=
  (handles.getD idx default).data

/-! ## Helper lemmas about the arena and the commit machinery -/

theorem alignDown_le (n a : Nat) : alignDown n a ≤ n :=
  Nat.div_mul_le_self n a

theorem getD_updateAt_point {α : Type} [Inhabited α] (l : List α)
    (i t : Nat) (f : α → α) :
    (updateAt l i f).getD t default =
      if t = i ∧ i < l.length then f (l.getD i default)
      else l.getD t default := by
  by_cases ht : t = i
  · subst ht
    by_cases hi : t < l.length
    · rw [getD_updateAt_self _ _ _ _ hi, if_pos ⟨rfl, hi⟩]
    · rw [updateAt_oob _ _ _ (Nat.le_of_not_lt hi),
        if_neg (fun h => hi h.2)]
  · rw [getD_updateAt_ne _ _ _ _ _ ht, if_neg (fun h => ht h.1)]

theorem allocateFromTail_some (a : SimpleMemoryAllocator)
    (bytes align p : Nat) (a' : SimpleMemoryAllocator)
    (h : a.allocateFromTail bytes align = some (p, a')) :
    a' = { a with tail := p } ∧ a.head ≤ p ∧ p + bytes ≤ a.tail := by
  unfold SimpleMemoryAllocator.allocateFromTail at h
  split at h
  · rename_i hb
    have h2 : (if alignDown (a.tail - bytes) align < a.head then none
        else some (alignDown (a.tail - bytes) align,
          { a with tail := alignDown (a.tail - bytes) align }))
        = some (p, a') := h
    split at h2
    · exact absurd h2 (by simp)
    · rename_i hp
      injection h2 with h1
      have hpp : alignDown (a.tail - bytes) align = p := congrArg Prod.fst h1
      have haa : ({ a with tail := alignDown (a.tail - bytes) align }
          : SimpleMemoryAllocator) = a' := congrArg Prod.snd h1
      refine ⟨by rw [← haa, hpp], by omega, ?_⟩
      have := alignDown_le (a.tail - bytes) align
      omega
  · exact absurd h (by simp)

theorem allocateFromTail_head_zero (a : SimpleMemoryAllocator)
    (bytes align : Nat) (hh : a.head = 0) (hb : bytes ≤ a.tail) :
    a.allocateFromTail bytes align =
      some (alignDown (a.tail - bytes) align,
        { a with tail := alignDown (a.tail - bytes) align }) := by
  unfold SimpleMemoryAllocator.allocateFromTail
  rw [if_pos hb, if_neg (by omega)]

theorem ensureHeadSize_some (a : SimpleMemoryAllocator) (bytes align : Nat)
    (a' : SimpleMemoryAllocator)
    (h : a.ensureHeadSize bytes align = some a') :
    a'.tail = a.tail ∧ a'.size = a.size ∧
      a'.head = max a.head (alignUp bytes align) := by
  unfold SimpleMemoryAllocator.ensureHeadSize at h
  have h2 : (if a.tail < max a.head (alignUp bytes align) then none else some { size := a.size, head := max a.head (alignUp bytes align), tail := a.tail, temp := max a.temp (max a.head (alignUp bytes align)) }) = some a' := h
  split at h2
  · exact absurd h2 (by simp)
  · injection h2 with h1
    rw [← h1]
    exact ⟨rfl, rfl, rfl⟩

theorem allocateTemp_avail (a : SimpleMemoryAllocator) (ht : a.temp = 0) :
    a.allocateTemp (a.getAvailableMemory kBufferAlignment) kBufferAlignment
      = some (0, { a with
          temp := a.getAvailableMemory kBufferAlignment }) := by
  unfold SimpleMemoryAllocator.allocateTemp
  have h0 : alignUp a.temp kBufferAlignment = 0 := by
    rw [ht]; rfl
  rw [h0]
  have hle : 0 + a.getAvailableMemory kBufferAlignment ≤ a.tail := by
    unfold SimpleMemoryAllocator.getAvailableMemory
    have := alignDown_le a.tail kBufferAlignment
    omega
  rw [if_pos hle]
  simp

theorem moveScratch_tail_le (st : MicroAllocatorState) :
    (moveScratchBufferHandlesToTail st).state.allocator.tail
      ≤ st.allocator.tail := by
  unfold moveScratchBufferHandlesToTail
  split
  · exact le_refl _
  · split
    · exact le_refl _
    · rename_i p a' hsome
      have hspec := allocateFromTail_some _ _ _ _ _ hsome
      show a'.tail ≤ st.allocator.tail
      rw [hspec.1]
      show p ≤ st.allocator.tail
      have := hspec.2.2
      omega

theorem moveScratch_handles (st : MicroAllocatorState) :
    (moveScratchBufferHandlesToTail st).state.scratch_buffer_handles
      = st.scratch_buffer_handles := by
  unfold moveScratchBufferHandlesToTail
  split
  · rfl
  · split <;> rfl

theorem moveScratch_count (st : MicroAllocatorState) :
    (moveScratchBufferHandlesToTail st).state.scratch_buffer_count
      = st.scratch_buffer_count := by
  unfold moveScratchBufferHandlesToTail
  split
  · rfl
  · split <;> rfl

theorem moveScratch_flag (st : MicroAllocatorState) :
    (moveScratchBufferHandlesToTail st).state.model_is_allocating
      = st.model_is_allocating := by
  unfold moveScratchBufferHandlesToTail
  split
  · rfl
  · split <;> rfl

/-- Planner index of entry `t`: the number of `needs_allocating` entries
before it (the planner numbers added buffers in insertion order). -/
def plannerIndexOf : List AllocationInfo → Nat → Nat
  | [], _ => 0
  | _ :: _, 0 => 0
  | a :: rest, t + 1 =>
    (if a.needs_allocating then 1 else 0) + plannerIndexOf rest t

theorem planOffsets_length (getOff : Nat → Except Unit Int) :
    ∀ (infos : List AllocationInfo) (pidx : Nat) (offs : List (Option Int)),
    planOffsets getOff infos pidx = .ok offs → offs.length = infos.length := by
  intro infos
  induction infos with
  | nil =>
    intro pidx offs h
    simp only [planOffsets] at h
    injection h with h'
    simp [← h']
  | cons cur rest ih =>
    intro pidx offs h
    simp only [planOffsets] at h
    split at h
    · cases hg : getOff pidx with
      | error e => rw [hg] at h; exact absurd h (by simp)
      | ok off =>
        rw [hg] at h
        cases hr : planOffsets getOff rest (pidx + 1) with
        | error e => rw [hr] at h; exact absurd h (by simp)
        | ok offs' =>
          rw [hr] at h
          injection h with h'
          rw [← h']
          simp [ih _ _ hr]
    · cases hr : planOffsets getOff rest pidx with
      | error e => rw [hr] at h; exact absurd h (by simp)
      | ok offs' =>
        rw [hr] at h
        injection h with h'
        rw [← h']
        simp [ih _ _ hr]

theorem planOffsets_getD (getOff : Nat → Except Unit Int) :
    ∀ (infos : List AllocationInfo) (pidx : Nat) (offs : List (Option Int)),
    planOffsets getOff infos pidx = .ok offs →
    ∀ t, offs.getD t none =
      (if (infos.getD t default).needs_allocating = true then
        (getOff (pidx + plannerIndexOf infos t)).toOption
       else none) := by
  intro infos
  induction infos with
  | nil =>
    intro pidx offs h t
    simp only [planOffsets] at h
    injection h with h'
    simp [← h']
  | cons cur rest ih =>
    intro pidx offs h t
    simp only [planOffsets] at h
    split at h
    · rename_i hna
      cases hg : getOff pidx with
      | error e => rw [hg] at h; exact absurd h (by simp)
      | ok off =>
        rw [hg] at h
        cases hr : planOffsets getOff rest (pidx + 1) with
        | error e => rw [hr] at h; exact absurd h (by simp)
        | ok offs' =>
          rw [hr] at h
          injection h with h'
          rw [← h']
          cases t with
          | zero =>
            simp only [List.getD_cons_zero, plannerIndexOf, Nat.add_zero]
            rw [if_pos hna, hg]
            rfl
          | succ t' =>
            simp only [List.getD_cons_succ, plannerIndexOf, hna, if_true]
            rw [ih _ _ hr t']
            have harith : pidx + 1 + plannerIndexOf rest t'
                = pidx + (1 + plannerIndexOf rest t') := by omega
            rw [harith]
    · rename_i hna
      cases hr : planOffsets getOff rest pidx with
      | error e => rw [hr] at h; exact absurd h (by simp)
      | ok offs' =>
        rw [hr] at h
        injection h with h'
        rw [← h']
        cases t with
        | zero =>
          simp only [List.getD_cons_zero, plannerIndexOf]
          rw [if_neg (by simpa using hna)]
        | succ t' =>
          simp only [List.getD_cons_succ, plannerIndexOf]
          rw [ih _ _ hr t']
          have hz : (if cur.needs_allocating then 1 else 0) = 0 := by
            simp [hna]
          rw [hz, Nat.zero_add]

theorem length_applyOffsetsEval (startPt : Int)
    (eval : List TfLiteEvalTensor) (offs : List (Option Int)) :
    (applyOffsetsEval startPt eval offs).length
      = min eval.length offs.length := by
  unfold applyOffsetsEval
  exact List.length_zipWith _ _ _

theorem applyOffsetsEval_getD (startPt : Int)
    (eval : List TfLiteEvalTensor) (offs : List (Option Int))
    (hlen : offs.length = eval.length) (t : Nat) :
    (applyOffsetsEval startPt eval offs).getD t default =
      (match offs.getD t none with
       | some off => { eval.getD t default with data := some (startPt + off) }
       | none => eval.getD t default) := by
  by_cases ht : t < eval.length
  · have htz : t < (applyOffsetsEval startPt eval offs).length := by
      rw [length_applyOffsetsEval]; omega
    rw [List.getD_eq_getElem _ _ htz, List.getD_eq_getElem _ _ ht,
      List.getD_eq_getElem _ _ (by omega : t < offs.length)]
    unfold applyOffsetsEval
    rw [List.getElem_zipWith]
  · rw [List.getD_eq_default _ _ (by rw [length_applyOffsetsEval]; omega),
      List.getD_eq_default _ _ (Nat.le_of_not_lt ht),
      List.getD_eq_default _ _ (by omega : offs.length ≤ t)]

theorem length_applyOffsetsHandles (startPt : Int)
    (handles : List ScratchBufferHandle) (offs : List (Option Int)) :
    (applyOffsetsHandles startPt handles offs).length
      = min handles.length offs.length := by
  unfold applyOffsetsHandles
  exact List.length_zipWith _ _ _

theorem applyOffsetsHandles_fields (startPt : Int)
    (handles : List ScratchBufferHandle) (offs : List (Option Int))
    (hlen : handles.length ≤ offs.length) (k : Nat) :
    ((applyOffsetsHandles startPt handles offs).getD k default).bytes
        = (handles.getD k default).bytes ∧
    ((applyOffsetsHandles startPt handles offs).getD k default).node_idx
        = (handles.getD k default).node_idx := by
  by_cases hk : k < handles.length
  · have hkz : k < (applyOffsetsHandles startPt handles offs).length := by
      rw [length_applyOffsetsHandles]; omega
    rw [List.getD_eq_getElem _ _ hkz, List.getD_eq_getElem _ _ hk]
    unfold applyOffsetsHandles
    rw [List.getElem_zipWith]
    split <;> exact ⟨rfl, rfl⟩
  · rw [List.getD_eq_default _ _ (by rw [length_applyOffsetsHandles]; omega),
      List.getD_eq_default _ _ (Nat.le_of_not_lt hk)]
    exact ⟨rfl, rfl⟩

theorem length_deriveLifetimes (sg : SubGraph) (offline : Option (List Int))
    (eval : List TfLiteEvalTensor) :
    (deriveLifetimes sg offline eval).length = sg.tensors.length := by
  show (lifetimeLoopAux sg.operators sg.operators.length _).length = _
  rw [length_lifetimeLoopAux, length_markOutputs, length_markInputs,
    length_addTensorsInit]

theorem addTensors_ok_length (sg : SubGraph) (offline : Option (List Int))
    (eval : List TfLiteEvalTensor) (out : List AllocationInfo)
    (h : addTensors sg offline eval = .ok out) :
    out.length = sg.tensors.length := by
  rw [postPassAux_ok _ 0 out h, List.length_map, length_deriveLifetimes]

theorem length_addScratchBuffers (handles : List ScratchBufferHandle) :
    (addScratchBuffers handles).length = handles.length := by
  unfold addScratchBuffers
  exact List.length_map _ _

theorem naAt_map_clearReadOnly (l : List AllocationInfo) (s : Nat) :
    naAt (l.map clearReadOnly) s
      = (clearReadOnly (l.getD s default)).needs_allocating := by
  unfold naAt
  by_cases hs : s < l.length
  · rw [List.getD_eq_getElem _ _ (by simpa using hs),
      List.getD_eq_getElem _ _ hs, List.getElem_map]
  · rw [List.getD_eq_default _ _ (by simpa using Nat.le_of_not_lt hs),
      List.getD_eq_default _ _ (Nat.le_of_not_lt hs)]
    rfl

theorem clearReadOnly_na_false (a : AllocationInfo)
    (h : a.needs_allocating = false) :
    (clearReadOnly a).needs_allocating = false := by
  unfold clearReadOnly
  split
  · rfl
  · exact h

/-- A variable tensor's `AllocationInfo` entry ends a successful
`AddTensors` with `needs_allocating = false`. -/
theorem addTensors_variable_na (sg : SubGraph) (offline : Option (List Int))
    (eval : List TfLiteEvalTensor) (out : List AllocationInfo) (s : Nat)
    (h : addTensors sg offline eval = .ok out)
    (hs : s < sg.tensors.length)
    (hvar : (sg.tensors.getD s default).is_variable = true) :
    naAt out s = false := by
  rw [postPassAux_ok _ 0 out h, naAt_map_clearReadOnly]
  apply clearReadOnly_na_false
  have hderive : naAt (deriveLifetimes sg offline eval) s = naInit sg eval s := by
    show naAt (lifetimeLoopAux sg.operators sg.operators.length _) s = _
    rw [naAt_lifetimeLoopAux, naAt_markOutputs, naAt_markInputs,
      naAt_addTensorsInit sg offline eval s hs]
  have hna : naInit sg eval s = false := by
    unfold naInit
    rw [hvar]
    simp
  have := hderive.trans hna
  unfold naAt at this
  exact this

/-! ## Specification of `AllocateVariables` and inversion of the commit -/

theorem getD_take {α : Type} (l : List α) (T t : Nat) (d : α) (h : t < T) :
    (l.take T).getD t d = l.getD t d := by
  by_cases ht : t < l.length
  · rw [List.getD_eq_getElem _ _ (by simp; omega),
      List.getD_eq_getElem _ _ ht]
    exact List.getElem_take l
  · rw [List.getD_eq_default _ _ (by simp; omega),
      List.getD_eq_default _ _ (by omega)]

theorem allocVarsGo_ok (sg : SubGraph) (L : List Nat) :
    ∀ (eval : List TfLiteEvalTensor) (a : SimpleMemoryAllocator)
      (eval' : List TfLiteEvalTensor) (a' : SimpleMemoryAllocator),
      L.Nodup → allocVarsGo sg L eval a = .ok (eval', a') →
      a'.tail ≤ a.tail ∧ eval'.length = eval.length ∧
      (∀ i, i ∉ L → eval'.getD i default = eval.getD i default) ∧
      (∀ i, i ∈ L → i < eval.length →
        (sg.tensors.getD i default).is_variable = true →
        ∃ p, (eval'.getD i default).data = some p ∧ (a'.tail : Int) ≤ p ∧
          p + ((eval.getD i default).bytes : Int) ≤ (a.tail : Int)) := by
  induction L with
  | nil =>
    intro eval a eval' a' _ h
    simp only [allocVarsGo] at h
    injection h with h1
    have he : eval = eval' := congrArg Prod.fst h1
    have ha : a = a' := congrArg Prod.snd h1
    subst he; subst ha
    exact ⟨le_refl _, rfl, fun i _ => rfl, fun i hmem => by simp at hmem⟩
  | cons j rest ih =>
    intro eval a eval' a' hnd h
    obtain ⟨hjr, hndr⟩ := List.nodup_cons.mp hnd
    simp only [allocVarsGo] at h
    by_cases hv : (sg.tensors.getD j default).is_variable = true
    · rw [if_pos hv] at h
      cases hm : a.allocateFromTail (eval.getD j default).bytes
          kBufferAlignment with
      | none => rw [hm] at h; exact absurd h (by simp)
      | some pa =>
        obtain ⟨p, a1⟩ := pa
        rw [hm] at h
        obtain ⟨hspec1, hspec2, hspec3⟩ := allocateFromTail_some _ _ _ _ _ hm
        have ha1tail : a1.tail = p := by rw [hspec1]
        obtain ⟨ih1, ih2, ih3, ih4⟩ := ih _ _ _ _ hndr h
        have hlen1 : (updateAt eval j
            (setEvalData (some (p : Int)))).length = eval.length :=
          length_updateAt _ _ _
        refine ⟨by omega, by rw [ih2, hlen1], ?_, ?_⟩
        · intro i hi
          have hir : i ∉ rest := fun hmem => hi (List.mem_cons.mpr (Or.inr hmem))
          have hij : i ≠ j := fun hij => hi (hij ▸ List.mem_cons_self j rest)
          rw [ih3 i hir, getD_updateAt_ne _ _ _ _ _ hij]
        · intro i hmem hilt hivar
          rcases List.mem_cons.mp hmem with hij | hir
          · subst hij
            have h1 : eval'.getD i default =
                (updateAt eval i (setEvalData (some (p : Int)))).getD i default :=
              ih3 i hjr
            rw [getD_updateAt_self _ _ _ _ hilt] at h1
            refine ⟨(p : Int), ?_, ?_, ?_⟩
            · rw [h1]; rfl
            · have : a'.tail ≤ p := by omega
              exact_mod_cast this
            · have : p + (eval.getD i default).bytes ≤ a.tail := hspec3
              exact_mod_cast this
          · have hij : i ≠ j := fun he => hjr (he ▸ hir)
            obtain ⟨p', hp1, hp2, hp3⟩ := ih4 i hir (by rw [hlen1]; exact hilt) hivar
            refine ⟨p', hp1, hp2, ?_⟩
            rw [getD_updateAt_ne _ _ _ _ _ hij] at hp3
            have hc1 : (a1.tail : Int) ≤ (a.tail : Int) := by
              have : a1.tail ≤ a.tail := by omega
              exact_mod_cast this
            omega
    · rw [if_neg hv] at h
      obtain ⟨ih1, ih2, ih3, ih4⟩ := ih _ _ _ _ hndr h
      refine ⟨ih1, ih2, ?_, ?_⟩
      · intro i hi
        exact ih3 i (fun hmem => hi (List.mem_cons.mpr (Or.inr hmem)))
      · intro i hmem hilt hivar
        rcases List.mem_cons.mp hmem with hij | hir
        · exact absurd (hij ▸ hivar) hv
        · exact ih4 i hir hilt hivar

theorem allocateVariables_ok (sg : SubGraph) (eval : List TfLiteEvalTensor)
    (a : SimpleMemoryAllocator) (eval' : List TfLiteEvalTensor)
    (a' : SimpleMemoryAllocator)
    (h : allocateVariables sg eval a = .ok (eval', a')) (i : Nat)
    (hi : i < sg.tensors.length) (hilt : i < eval.length)
    (hvar : (sg.tensors.getD i default).is_variable = true) :
    ∃ p, (eval'.getD i default).data = some p ∧ (a'.tail : Int) ≤ p ∧
      p + ((eval.getD i default).bytes : Int) ≤ (a.tail : Int) := by
  obtain ⟨_, _, _, h4⟩ := allocVarsGo_ok sg (List.range sg.tensors.length)
    eval a eval' a' (List.nodup_range _) h
  exact h4 i (List.mem_range.mpr hi) hilt hvar

theorem buildAllocationInfo_ok_inv (st : MicroAllocatorState) (sg : SubGraph)
    (model : Model) (eval : List TfLiteEvalTensor)
    (infos : List AllocationInfo)
    (h : buildAllocationInfo st sg model eval = .ok infos) :
    ∃ offline ti,
      getOfflinePlannedOffsets sg.tensors.length model = .ok offline ∧
      addTensors sg offline eval = .ok ti ∧
      infos = ti ++ addScratchBuffers st.scratch_buffer_handles ∧
      ti.length = sg.tensors.length := by
  unfold buildAllocationInfo at h
  split at h
  · exact absurd h (by simp)
  · rename_i offline hg
    split at h
    · exact absurd h (by simp)
    · rename_i ti ht
      injection h with h1
      exact ⟨offline, ti, hg, ht, h1.symm, addTensors_ok_length _ _ _ _ ht⟩

theorem planOffsets_query_ok (getOff : Nat → Except Unit Int) :
    ∀ (l : List AllocationInfo) (pidx : Nat) (offs : List (Option Int)),
      planOffsets getOff l pidx = .ok offs →
      ∀ t, t < l.length → (l.getD t default).needs_allocating = true →
      ∃ off, getOff (pidx + plannerIndexOf l t) = .ok off := by
  intro l
  induction l with
  | nil =>
    intro pidx offs _ t ht
    simp at ht
  | cons cur rest ih =>
    intro pidx offs h t ht hna
    simp only [planOffsets] at h
    split at h
    · rename_i hcur
      cases hg : getOff pidx with
      | error e => rw [hg] at h; exact absurd h (by simp)
      | ok off =>
        rw [hg] at h
        cases hr : planOffsets getOff rest (pidx + 1) with
        | error e => rw [hr] at h; exact absurd h (by simp)
        | ok offs' =>
          cases t with
          | zero => exact ⟨off, by simpa [plannerIndexOf] using hg⟩
          | succ t' =>
            obtain ⟨o, ho⟩ := ih (pidx + 1) offs' hr t' (by simpa using ht)
              (by simpa using hna)
            refine ⟨o, ?_⟩
            have harith : pidx + plannerIndexOf (cur :: rest) (t' + 1)
                = pidx + 1 + plannerIndexOf rest t' := by
              simp [plannerIndexOf, hcur]
              omega
            rw [harith]
            exact ho
    · rename_i hcur
      cases hr : planOffsets getOff rest pidx with
      | error e => rw [hr] at h; exact absurd h (by simp)
      | ok offs' =>
        cases t with
        | zero => exact absurd hna (by simpa using hcur)
        | succ t' =>
          obtain ⟨o, ho⟩ := ih pidx offs' hr t' (by simpa using ht)
            (by simpa using hna)
          refine ⟨o, ?_⟩
          have harith : plannerIndexOf (cur :: rest) (t' + 1)
              = plannerIndexOf rest t' := by
            simp [plannerIndexOf, hcur]
          rw [harith]
          exact ho

theorem commitStaticMemoryPlan_ok_inv (planner : PlannerModel)
    (st : MicroAllocatorState) (model : Model) (sg : SubGraph)
    (eval : List TfLiteEvalTensor) (st2 : MicroAllocatorState)
    (eval2 : List TfLiteEvalTensor)
    (h : commitStaticMemoryPlan planner st model sg eval = .ok (st2, eval2)) :
    ∃ infos maxSize getOff offs a',
      buildAllocationInfo st sg model eval = .ok infos ∧
      planner.plan (createPlanRequests infos) = .ok (maxSize, getOff) ∧
      maxSize ≤ st.allocator.getAvailableMemory kBufferAlignment ∧
      planOffsets getOff infos 0 = .ok offs ∧
      st.allocator.ensureHeadSize maxSize kBufferAlignment = some a' ∧
      st2 = { st with
              allocator := a'
              scratch_buffer_handles := applyOffsetsHandles
                ((st.allocator.getBufferHead : Nat) : Int)
                st.scratch_buffer_handles (offs.drop sg.tensors.length) } ∧
      eval2 = applyOffsetsEval ((st.allocator.getBufferHead : Nat) : Int)
        eval (offs.take sg.tensors.length) := by
  simp only [commitStaticMemoryPlan] at h
  split at h
  · exact absurd h (by simp)
  · split at h
    · exact absurd h (by simp)
    · rename_i infos hinfos
      split at h
      · exact absurd h (by simp)
      · split at h
        · exact absurd h (by simp)
        · rename_i pr maxSize getOff hplan
          split at h
          · exact absurd h (by simp)
          · rename_i hover
            split at h
            · exact absurd h (by simp)
            · rename_i offs hoffs
              split at h
              · exact absurd h (by simp)
              · rename_i a' hhead
                injection h with h1
                refine ⟨infos, maxSize, getOff, offs, a', hinfos, ?_, by omega,
                  hoffs, hhead, ?_, ?_⟩
                · exact hplan
                · exact (congrArg Prod.fst h1).symm
                · exact (congrArg Prod.snd h1).symm

theorem commitStaticMemoryPlan_overflow (planner : PlannerModel)
    (st : MicroAllocatorState) (model : Model) (sg : SubGraph)
    (eval : List TfLiteEvalTensor) (infos : List AllocationInfo)
    (maxSize : Nat) (getOff : Nat → Except Unit Int)
    (hbytes : sizeofAllocationInfo *
      (sg.tensors.length + st.scratch_buffer_count) ≤ st.allocator.tail)
    (hb : buildAllocationInfo st sg model eval = .ok infos)
    (hplan : planner.plan (createPlanRequests infos) = .ok (maxSize, getOff))
    (hover : maxSize > st.allocator.getAvailableMemory kBufferAlignment) :
    commitStaticMemoryPlan planner st model sg eval =
      .error (.arenaTooSmall maxSize
        (st.allocator.getAvailableMemory kBufferAlignment)) := by
  have hred := allocateFromTail_head_zero
    { size := st.allocator.tail, head := 0, tail := st.allocator.tail,
      temp := 0 }
    (sizeofAllocationInfo * (sg.tensors.length + st.scratch_buffer_count))
    alignofRecord rfl hbytes
  have htmp := allocateTemp_avail
    { size := st.allocator.tail, head := 0,
      tail := alignDown (st.allocator.tail - sizeofAllocationInfo *
        (sg.tensors.length + st.scratch_buffer_count)) alignofRecord,
      temp := 0 } rfl
  simp only [commitStaticMemoryPlan, hred, hb, htmp, hplan]
  rw [if_pos hover]


/-! ## Executable scenarios used by the claim witnesses and counterexamples -/

/-- Size of a planner request list under the stack discipline of
`stackPlanner`: offset of the `k`-th buffer. -/
def prefixSize : List PlanBuf → Nat → Nat
  | _, 0 => 0
  | [], _ + 1 => 0
  | b :: rest, k + 1 => b.bytes + prefixSize rest k

/-- Total footprint of a planner request list under the stack discipline. -/
def totalSize (bufs : List PlanBuf) : Nat :=
  bufs.foldl (fun acc b => acc + b.bytes) 0

/-- A concrete planner instance: packs every buffer consecutively
(ignoring lifetimes), so the maximum memory size is the sum of the aligned
sizes. -/
def stackPlanner : PlannerModel :=
  { plan := fun bufs => .ok (totalSize bufs, fun k =>
      if k < bufs.length then .ok ((prefixSize bufs k : Int)) else .error ()) }

/-- Two-tensor single-operator subgraph. -/
def sgSmall : SubGraph :=
  { tensors := [{ bytes := 16 }, { bytes := 16 }]
    inputs := [0]
    outputs := [1]
    operators := [{ inputs := [0], outputs := [1] }] }

def evalSmall : List TfLiteEvalTensor := [{ bytes := 16 }, { bytes := 16 }]

/-- Mid-allocation state with one registered scratch buffer and ample
arena room. -/
def stGood6 : MicroAllocatorState :=
  { allocator := { size := 1024, head := 16, tail := 960, temp := 16 }
    model_is_allocating := true
    scratch_buffer_count := 1
    scratch_buffer_handles := [{ bytes := 64, node_idx := 0, data := none }]
    scratch_handles_base := some 0 }

def modelSmall : Model := { subgraphs := [sgSmall] }

/-- `sgSmall`'s model with an `"OfflineMemoryAllocation"` metadata entry
whose version word is 2 (not 1): words `[version, subgraph, count,
offset, offset]`. -/
def modelV2 : Model :=
  { subgraphs := [sgSmall]
    buffers := [{ words := [2, 0, 2, -1, -1] }]
    metadata := some [{ nameIsOfflineMemAlloc := true, buffer := 0 }] }

/-- Three-tensor subgraph whose middle tensor is a variable. -/
def sgVar : SubGraph :=
  { tensors := [{ bytes := 16 }, { bytes := 128, is_variable := true },
      { bytes := 16 }]
    inputs := [0]
    outputs := [2]
    operators := [{ inputs := [0, 1], outputs := [2] }] }

def evalVar : List TfLiteEvalTensor :=
  [{ bytes := 16 }, { bytes := 128 }, { bytes := 16 }]

def stVar : MicroAllocatorState :=
  { allocator := { size := 1024, head := 0, tail := 960, temp := 0 }
    model_is_allocating := true }

def modelVar : Model := { subgraphs := [sgVar] }

/-- Mid-allocation state with one registered scratch buffer and an
exhausted arena: the tail allocation of the scratch-handle move returns
null. -/
def stMoveFail : MicroAllocatorState :=
  { allocator := { size := 32, head := 16, tail := 16, temp := 16 }
    model_is_allocating := true
    scratch_buffer_count := 1
    scratch_buffer_handles := [{ bytes := 64, node_idx := 0, data := none }]
    scratch_handles_base := some 0 }

/-- Subgraph whose output tensor is far larger than the arena. -/
def sgOver : SubGraph :=
  { tensors := [{ bytes := 16 }, { bytes := 10000 }]
    inputs := [0]
    outputs := [1]
    operators := [{ inputs := [0], outputs := [1] }] }

def evalOver : List TfLiteEvalTensor := [{ bytes := 16 }, { bytes := 10000 }]

def stOver : MicroAllocatorState :=
  { allocator := { size := 1024, head := 0, tail := 512, temp := 0 }
    model_is_allocating := true }

def modelOver : Model := { subgraphs := [sgOver] }

/-- Drive a sequence of `RequestScratchBufferInArena` calls, collecting the
returned buffer indices. -/
def runScratchRequests : List (Int × Nat) → MicroAllocatorState →
    Except AllocErr (List Nat × MicroAllocatorState)
  | [], st => .ok ([], st)
  | (node, bytes) :: rest, st =>
    match requestScratchBufferInArena st node bytes with
    | .error e => .error e
    | .ok (idx, st') =>
      match runScratchRequests rest st' with
      | .error e => .error e
      | .ok (idxs, st'') => .ok (idx :: idxs, st'')

/-- Fresh mid-allocation state for scratch-request runs. -/
def stReq : MicroAllocatorState :=
  { allocator := { size := 1024, head := 0, tail := 512, temp := 0 }
    model_is_allocating := true }


/-- The allocation-info list `CommitStaticMemoryPlan` builds for `stOver`. -/
def infosOver : List AllocationInfo :=
  [{ bytes := 16
     first_created := 0
     last_used := 0
     offline_offset := -1
     needs_allocating := true },
   { bytes := 10000
     first_created := 0
     last_used := 0
     offline_offset := -1
     needs_allocating := true }]

/-- The offset oracle `stackPlanner` returns for `infosOver`. -/
def getOffOver : Nat → Except Unit Int :=
  fun k => if k < (createPlanRequests infosOver).length then
    .ok ((prefixSize (createPlanRequests infosOver) k : Int)) else .error ()

/-- State after the two scratch requests of the C9 witness. -/
def stReqF : MicroAllocatorState :=
  { allocator := { size := 1024, head := 32, tail := 512, temp := 32 }
    model_is_allocating := true
    scratch_buffer_count := 2
    scratch_buffer_handles := [{ bytes := 64, node_idx := 0, data := none },
      { bytes := 32, node_idx := 1, data := none }]
    scratch_handles_base := some 0 }

/-- Resolver oracle that accepts everything. -/
def resolverW : MicroOpResolverModel :=
  { hasRegistration := fun _ => true
    hasParser := fun _ => true
    parseOk := fun _ => true }

/-- Idle allocator state. -/
def stIdleW : MicroAllocatorState :=
  { allocator := { size := 0, head := 0, tail := 0, temp := 0 } }

/-- Empty arena used by the C10 witness. -/
def allocW : SimpleMemoryAllocator :=
  { size := 0, head := 0, tail := 0, temp := 0 }

/-- A scalar tensor: serialized shape absent. -/
def tScalar : FBTensor := { bytes := 4 }

/-! ## Further helper lemmas for the claim theorems -/

theorem addScratchBuffers_getD (hs : List ScratchBufferHandle) (k : Nat)
    (hk : k < hs.length) :
    (addScratchBuffers hs).getD k default =
      { bytes := (hs.getD k default).bytes
        first_created := (hs.getD k default).node_idx
        last_used := (hs.getD k default).node_idx
        offline_offset := kOnlinePlannedBuffer
        needs_allocating := true } := by
  unfold addScratchBuffers
  rw [List.getD_eq_getElem _ _ (by simpa using hk),
    List.getD_eq_getElem _ _ hk, List.getElem_map]

theorem requestScratch_ok_inv (st : MicroAllocatorState) (node : Int)
    (bytes : Nat) (idx : Nat) (st1 : MicroAllocatorState)
    (h : requestScratchBufferInArena st node bytes = .ok (idx, st1)) :
    idx = st.scratch_buffer_count ∧
    st1.scratch_buffer_count = st.scratch_buffer_count + 1 ∧
    st1.scratch_buffer_handles = st.scratch_buffer_handles ++
      [{ bytes := bytes, node_idx := node, data := none }] ∧
    st1.scratch_handles_base = some 0 ∧
    st1.allocator.tail = st.allocator.tail := by
  unfold requestScratchBufferInArena at h
  split at h
  · exact absurd h (by simp)
  · rename_i a' hhead
    injection h with h1
    injection h1 with h2 h3
    subst h2
    subst h3
    exact ⟨rfl, rfl, rfl, rfl, (ensureHeadSize_some _ _ _ _ hhead).1⟩


/-! ## Claim theorems -/

/-- Claim C4: `StartModelAllocation` called while a model allocation is in
progress returns an error and leaves the observable allocator state
unchanged; `FinishModelAllocation` called while idle likewise returns an
error with no state change. -/
theorem c4_protocol_misuse (le : Bool) (resolver : MicroOpResolverModel)
    (planner : PlannerModel) (stBusy stIdle : MicroAllocatorState)
    (model : Model) (eval : List TfLiteEvalTensor)
    (hbusy : stBusy.model_is_allocating = true)
    (hidle : stIdle.model_is_allocating = false) :
    (startModelAllocation le resolver stBusy model).status
        = .error .protocolMisuse ∧
    (startModelAllocation le resolver stBusy model).state = stBusy ∧
    (finishModelAllocation planner stIdle model eval).status
        = .error .protocolMisuse ∧
    (finishModelAllocation planner stIdle model eval).state = stIdle ∧
    (finishModelAllocation planner stIdle model eval).eval = eval := by
  unfold startModelAllocation finishModelAllocation
  rw [hbusy, hidle]
  exact ⟨rfl, rfl, rfl, rfl, rfl⟩

theorem c4_protocol_misuse_witness :
    (startModelAllocation true resolverW stVar modelSmall).status
        = .error .protocolMisuse ∧
    (startModelAllocation true resolverW stVar modelSmall).state = stVar ∧
    (finishModelAllocation stackPlanner stIdleW modelSmall evalSmall).status
        = .error .protocolMisuse ∧
    (finishModelAllocation stackPlanner stIdleW modelSmall evalSmall).state
        = stIdleW ∧
    (finishModelAllocation stackPlanner stIdleW modelSmall evalSmall).eval
        = evalSmall :=
  c4_protocol_misuse true resolverW stackPlanner stVar stIdleW modelSmall
    evalSmall rfl rfl

/-- Claim C7 (refuted — code bug): on `stMoveFail` the tail allocation of
the scratch-handle move returns null, yet `MoveScratchBufferHandlesToTail`
performs its copy loop through the null destination pointer and still
returns ok, contrary to the claim that every null return from the arena is
detected before use and turned into an error. -/
theorem c7_move_null_unchecked :
    stMoveFail.allocator.allocateFromTail
        (sizeofScratchBufferHandle * stMoveFail.scratch_buffer_count)
        alignofRecord = none ∧
    (moveScratchBufferHandlesToTail stMoveFail).status = .ok () ∧
    (moveScratchBufferHandlesToTail stMoveFail).wroteThroughNull = true := by
  decide

/-- Claim C10: a tensor with no serialized shape gets the shared
zero-length dimension array (non-null, size 0) in both the eval-tensor and
the full-tensor initialization path, with no arena allocation performed
for it. -/
theorem c10_scalar_dims (le : Bool) (a : SimpleMemoryAllocator)
    (fromTemp : Bool) (t : FBTensor) (buffers : List FBBuffer)
    (hscalar : t.shape = none) :
    (∃ et, initEvalTensorFromFlatbuffer le a t buffers = .ok (et, a) ∧
      et.dims = .zeroLengthShared ∧
      et.dims.toArray = some kZeroLengthIntArray) ∧
    kZeroLengthIntArray.length = 0 ∧
    (∀ tt a', initTensorFromFlatbuffer le a fromTemp t buffers = .ok (tt, a') →
      tt.dims = .zeroLengthShared ∧
      tt.dims.toArray = some kZeroLengthIntArray) ∧
    (t.quantization = none →
      ∃ tt, initTensorFromFlatbuffer le a fromTemp t buffers = .ok (tt, a)) := by
  have hstep : initTensorFromFlatbuffer le a fromTemp t buffers =
      (match buildQuantization le a fromTemp t with
       | .error b => .error b
       | .ok (quant, a2) =>
         .ok ({ data := getFlatbufferTensorBuffer t buffers
                is_variable := t.is_variable
                allocation_type :=
                  if getFlatbufferTensorBuffer t buffers = none
                  then .arenaRw else .mmapRo
                bytes := t.bytes
                dims := .zeroLengthShared
                quantization := quant }, a2)) := by
    unfold initTensorFromFlatbuffer
    rw [hscalar]
  refine ⟨?_, rfl, ?_, ?_⟩
  · refine ⟨{ data := getFlatbufferTensorBuffer t buffers, dims := .zeroLengthShared, bytes := t.bytes }, ?_, rfl, rfl⟩
    unfold initEvalTensorFromFlatbuffer
    rw [hscalar]
  · intro tt a' h
    rw [hstep] at h
    cases hq : buildQuantization le a fromTemp t with
    | error b => rw [hq] at h; exact absurd h (by simp)
    | ok pr =>
      obtain ⟨quant, a2⟩ := pr
      rw [hq] at h
      injection h with h1
      injection h1 with h2 h3
      subst h2
      exact ⟨rfl, rfl⟩
  · intro hq
    have hbq : buildQuantization le a fromTemp t = .ok (none, a) := by
      unfold buildQuantization
      rw [hq]
    rw [hstep, hbq]
    exact ⟨_, rfl⟩

theorem c10_scalar_dims_witness :
    (∃ et, initEvalTensorFromFlatbuffer true allocW tScalar [] = .ok (et, allocW) ∧
      et.dims = .zeroLengthShared ∧
      et.dims.toArray = some kZeroLengthIntArray) ∧
    kZeroLengthIntArray.length = 0 ∧
    (∀ tt a', initTensorFromFlatbuffer true allocW false tScalar [] = .ok (tt, a') →
      tt.dims = .zeroLengthShared ∧
      tt.dims.toArray = some kZeroLengthIntArray) ∧
    (tScalar.quantization = none →
      ∃ tt, initTensorFromFlatbuffer true allocW false tScalar [] = .ok (tt, allocW)) :=
  c10_scalar_dims true allocW false tScalar [] rfl


/-- Claim C5 (amended): on the `FinishModelAllocation` path the
`"OfflineMemoryAllocation"` metadata is rejected only when its tensor-count
word (word 2) differs from the subgraph tensor count; the version word
(word 0) and subgraph-index word (word 1) are read but never validated, so
a plan with version ≠ 1 or subgraph ≠ 0 is accepted.  A count mismatch is
propagated by the builder as the count-mismatch error, so no offsets are
used. -/
theorem c5_offline_plan_amended (tensorCount : Nat) (model : Model)
    (md : Metadata) (hmd : model.metadata = some [md])
    (hname : md.nameIsOfflineMemAlloc = true) :
    (getOfflinePlannedOffsets tensorCount model =
      if tensorCount ≠
          ((model.buffers.getD md.buffer default).words.getD 2 0).toNat
      then .error
        (((model.buffers.getD md.buffer default).words.getD 2 0).toNat,
          tensorCount)
      else .ok (some ((model.buffers.getD md.buffer default).words.drop 3))) ∧
    (∀ (st : MicroAllocatorState) (sg : SubGraph)
        (eval : List TfLiteEvalTensor) (nbr tc : Nat),
      getOfflinePlannedOffsets sg.tensors.length model = .error (nbr, tc) →
      buildAllocationInfo st sg model eval =
        .error (.offlineCountMismatch nbr tc)) := by
  constructor
  · simp only [getOfflinePlannedOffsets, hmd, List.foldl_cons, List.foldl_nil,
      hname, if_true]
  · intro st sg eval nbr tc h
    unfold buildAllocationInfo
    rw [h]

theorem c5_offline_plan_amended_witness :
    getOfflinePlannedOffsets 2 modelV2 =
      (if (2 : Nat) ≠
          ((modelV2.buffers.getD 0 default).words.getD 2 0).toNat
       then .error
         (((modelV2.buffers.getD 0 default).words.getD 2 0).toNat, 2)
       else .ok (some ((modelV2.buffers.getD 0 default).words.drop 3))) :=
  (c5_offline_plan_amended 2 modelV2
    { nameIsOfflineMemAlloc := true, buffer := 0 } rfl rfl).1

/-- Claim C5 counterexample: `modelV2` carries an
`"OfflineMemoryAllocation"` entry whose version word is 2 — the (dead)
checker `CheckOfflinePlannedOffsets` would reject it — yet
`FinishModelAllocation` accepts the model, contradicting the claim that a
version ≠ 1 is rejected with an error. -/
theorem c5_counterexample :
    (modelV2.buffers.getD 0 default).words.getD 0 0 = 2 ∧
    modelV2.metadata = some [{ nameIsOfflineMemAlloc := true, buffer := 0 }] ∧
    checkOfflinePlannedOffsets modelV2 = false ∧
    (finishModelAllocation stackPlanner stGood6 modelV2 evalSmall).status
      = .ok () := by
  decide

/-- Claim C6 (amended): `FinishModelAllocation` moves the scratch-buffer
handles to a freshly tail-allocated permanent region BEFORE the
planning-and-commit step, not after it: its step trace always begins with
the move when anything runs at all.  The move preserves the handle records
(bytes and node index) and repoints the handle base at the tail copy. -/
theorem c6_move_order_amended (planner : PlannerModel)
    (st : MicroAllocatorState) (model : Model)
    (eval : List TfLiteEvalTensor) :
    ((finishModelAllocation planner st model eval).trace = [] ∨
     (finishModelAllocation planner st model eval).trace
        = [.moveScratch, .commitPlan] ∨
     (finishModelAllocation planner st model eval).trace
        = [.moveScratch, .commitPlan, .allocVars]) ∧
    (moveScratchBufferHandlesToTail st).state.scratch_buffer_handles
        = st.scratch_buffer_handles ∧
    (moveScratchBufferHandlesToTail st).state.scratch_buffer_count
        = st.scratch_buffer_count ∧
    (∀ (p : Nat) (a' : SimpleMemoryAllocator),
      st.scratch_buffer_count ≠ 0 →
      st.allocator.allocateFromTail
          (sizeofScratchBufferHandle * st.scratch_buffer_count) alignofRecord
        = some (p, a') →
      (moveScratchBufferHandlesToTail st).state.scratch_handles_base
          = some p ∧
      (moveScratchBufferHandlesToTail st).state.allocator.tail = p) := by
  refine ⟨?_, moveScratch_handles st, moveScratch_count st, ?_⟩
  · simp only [finishModelAllocation]
    split
    · exact Or.inl rfl
    · split
      · split
        · exact Or.inr (Or.inl rfl)
        · split
          · exact Or.inr (Or.inr rfl)
          · exact Or.inr (Or.inr rfl)
      · exact Or.inl rfl
  · intro p a' hc hm
    unfold moveScratchBufferHandlesToTail
    rw [if_neg hc, hm]
    refine ⟨rfl, ?_⟩
    rw [(allocateFromTail_some _ _ _ _ _ hm).1]

theorem c6_move_order_amended_witness :
    (moveScratchBufferHandlesToTail stGood6).state.scratch_handles_base
        = some 944 ∧
    (moveScratchBufferHandlesToTail stGood6).state.allocator.tail = 944 :=
  (c6_move_order_amended stackPlanner stGood6 modelSmall
    evalSmall).2.2.2 944
    { size := 1024, head := 16, tail := 944, temp := 16 }
    (by decide) (by decide)

/-- Claim C6 counterexample: a successful `FinishModelAllocation` run with
one registered scratch buffer executes the move step first — the trace (in
execution order) is move, commit, allocate-variables — refuting the claim
that the handles are moved only after the planning-and-commit step. -/
theorem c6_counterexample :
    1 ≤ stGood6.scratch_buffer_count ∧
    (finishModelAllocation stackPlanner stGood6 modelSmall evalSmall).status
      = .ok () ∧
    (finishModelAllocation stackPlanner stGood6 modelSmall evalSmall).trace
      = [.moveScratch, .commitPlan, .allocVars] ∧
    (finishModelAllocation stackPlanner stGood6 modelSmall
        evalSmall).trace.head? = some .moveScratch := by
  decide


/-- Claim C9: a run of successful `RequestScratchBufferInArena` calls
returns the consecutive indices `count, count+1, …` (so starting from an
empty registry the k-th request returns k−1), appends one handle per call
recording the requested bytes and owning node (head region only: the tail
cursor never moves and the handle base is the head base), and
`AddScratchBuffers` then gives each handle, in registration order after the
tensor entries, `first_created = last_used = node`, the online sentinel and
`needs_allocating = true`. -/
theorem c9_scratch_request (reqs : List (Int × Nat)) :
    ∀ (st : MicroAllocatorState) (idxs : List Nat)
      (st' : MicroAllocatorState),
      runScratchRequests reqs st = .ok (idxs, st') →
      idxs = List.range' st.scratch_buffer_count reqs.length ∧
      st'.scratch_buffer_count = st.scratch_buffer_count + reqs.length ∧
      st'.scratch_buffer_handles = st.scratch_buffer_handles ++
        reqs.map (fun r => { bytes := r.2, node_idx := r.1, data := none }) ∧
      (reqs ≠ [] → st'.scratch_handles_base = some 0) ∧
      st'.allocator.tail = st.allocator.tail ∧
      (∀ (hs : List ScratchBufferHandle) (k : Nat), k < hs.length →
        (addScratchBuffers hs).getD k default =
          { bytes := (hs.getD k default).bytes
            first_created := (hs.getD k default).node_idx
            last_used := (hs.getD k default).node_idx
            offline_offset := kOnlinePlannedBuffer
            needs_allocating := true }) ∧
      (∀ (stA : MicroAllocatorState) (sg : SubGraph) (model : Model)
          (eval : List TfLiteEvalTensor) (infos : List AllocationInfo),
        buildAllocationInfo stA sg model eval = .ok infos →
        ∃ ti, infos = ti ++ addScratchBuffers stA.scratch_buffer_handles ∧
          ti.length = sg.tensors.length) := by
  induction reqs with
  | nil =>
    intro st idxs st' h
    simp only [runScratchRequests] at h
    injection h with h1
    injection h1 with h2 h3
    subst h2
    subst h3
    refine ⟨rfl, rfl, by simp, fun hne => absurd rfl hne, rfl,
      addScratchBuffers_getD, ?_⟩
    intro stA sg model eval infos hb
    obtain ⟨_, ti, _, _, heq, hlen⟩ := buildAllocationInfo_ok_inv _ _ _ _ _ hb
    exact ⟨ti, heq, hlen⟩
  | cons req rest ih =>
    intro st idxs st' h
    obtain ⟨node, bytes⟩ := req
    simp only [runScratchRequests] at h
    cases hreq : requestScratchBufferInArena st node bytes with
    | error e => rw [hreq] at h; exact absurd h (by simp)
    | ok pr =>
      obtain ⟨idx, st1⟩ := pr
      rw [hreq] at h
      have h0 : (match runScratchRequests rest st1 with
          | Except.error e => Except.error e
          | Except.ok (idxs, st2) => Except.ok (idx :: idxs, st2))
            = Except.ok (idxs, st') := h
      cases hrun : runScratchRequests rest st1 with
      | error e => rw [hrun] at h0; exact absurd h0 (by simp)
      | ok pr2 =>
        obtain ⟨idxs', st''⟩ := pr2
        rw [hrun] at h0
        injection h0 with h1
        injection h1 with h2 h3
        subst h2
        subst h3
        obtain ⟨hq1, hq2, hq3, hq4, hq5⟩ := requestScratch_ok_inv _ _ _ _ _ hreq
        obtain ⟨ih1, ih2, ih3, ih4, ih5, ih6, ih7⟩ := ih st1 idxs' st'' hrun
        refine ⟨?_, by simp only [List.length_cons]; omega, ?_, ?_,
          by omega, ih6, ih7⟩
        · rw [ih1, hq1, hq2]
          rfl
        · rw [ih3, hq3, List.append_assoc]
          rfl
        · intro _
          rcases List.eq_nil_or_concat rest with hrest | _
          · subst hrest
            simp only [runScratchRequests] at hrun
            injection hrun with h4
            injection h4 with h5 h6
            subst h6
            exact hq4
          · by_cases hrn : rest = []
            · subst hrn
              simp only [runScratchRequests] at hrun
              injection hrun with h4
              injection h4 with h5 h6
              subst h6
              exact hq4
            · exact ih4 hrn


theorem c9_scratch_request_witness :
    ([0, 1] : List Nat) = List.range' stReq.scratch_buffer_count 2 :=
  (c9_scratch_request [((0 : Int), 64), ((1 : Int), 32)] stReq [0, 1] stReqF
    (by decide)).1

theorem getD_drop {α : Type} (l : List α) (T k : Nat) (d : α) :
    (l.drop T).getD k d = l.getD (T + k) d := by
  by_cases h : T + k < l.length
  · rw [List.getD_eq_getElem _ _ (by simp; omega),
      List.getD_eq_getElem _ _ h]
    exact List.getElem_drop l
  · rw [List.getD_eq_default _ _ (by simp; omega),
      List.getD_eq_default _ _ (by omega)]

theorem applyOffsetsHandles_getD (startPt : Int)
    (handles : List ScratchBufferHandle) (offs : List (Option Int))
    (hlen : offs.length = handles.length) (k : Nat) :
    (applyOffsetsHandles startPt handles offs).getD k default =
      (match offs.getD k none with
       | some off =>
         { handles.getD k default with data := some (startPt + off) }
       | none => handles.getD k default) := by
  by_cases hk : k < handles.length
  · have hkz : k < (applyOffsetsHandles startPt handles offs).length := by
      rw [length_applyOffsetsHandles]; omega
    rw [List.getD_eq_getElem _ _ hkz, List.getD_eq_getElem _ _ hk,
      List.getD_eq_getElem _ _ (by omega : k < offs.length)]
    unfold applyOffsetsHandles
    rw [List.getElem_zipWith]
  · rw [List.getD_eq_default _ _ (by rw [length_applyOffsetsHandles]; omega),
      List.getD_eq_default _ _ (Nat.le_of_not_lt hk),
      List.getD_eq_default _ _ (by omega : offs.length ≤ k)]

/-- Claim C8: in `CommitStaticMemoryPlan`, a planner maximum memory size
exceeding the arena's available memory (at 16-byte alignment) produces the
needed-vs-available error before any offset is written; otherwise, on a
successful commit, every `needs_allocating` entry's data pointer — the eval
tensor's data for the tensor entries, the scratch handle's data for the
scratch entries that follow them — is set to the head base plus its planner
offset, and the head region is grown to the planned footprint. -/
theorem c8_planner_overflow (planner : PlannerModel)
    (st : MicroAllocatorState) (model : Model) (sg : SubGraph)
    (eval : List TfLiteEvalTensor) (infos : List AllocationInfo)
    (maxSize : Nat) (getOff : Nat → Except Unit Int)
    (hbytes : sizeofAllocationInfo *
      (sg.tensors.length + st.scratch_buffer_count) ≤ st.allocator.tail)
    (hb : buildAllocationInfo st sg model eval = .ok infos)
    (hplan : planner.plan (createPlanRequests infos) = .ok (maxSize, getOff)) :
    (maxSize > st.allocator.getAvailableMemory kBufferAlignment →
      commitStaticMemoryPlan planner st model sg eval =
        .error (.arenaTooSmall maxSize
          (st.allocator.getAvailableMemory kBufferAlignment))) ∧
    (∀ (st2 : MicroAllocatorState) (eval2 : List TfLiteEvalTensor),
      commitStaticMemoryPlan planner st model sg eval = .ok (st2, eval2) →
      eval.length = sg.tensors.length →
      st2.allocator.head
          = max st.allocator.head (alignUp maxSize kBufferAlignment) ∧
      infos.length
          = sg.tensors.length + st.scratch_buffer_handles.length ∧
      (∀ t, t < sg.tensors.length →
        (infos.getD t default).needs_allocating = true →
        ∃ off, getOff (plannerIndexOf infos t) = .ok off ∧
          (eval2.getD t default).data
            = some (((st.allocator.getBufferHead : Nat) : Int) + off)) ∧
      (∀ k, k < st.scratch_buffer_handles.length →
        (infos.getD (sg.tensors.length + k) default).needs_allocating
            = true →
        ∃ off, getOff (plannerIndexOf infos (sg.tensors.length + k))
            = .ok off ∧
          (st2.scratch_buffer_handles.getD k default).data
            = some (((st.allocator.getBufferHead : Nat) : Int) + off))) := by
  constructor
  · intro hover
    exact commitStaticMemoryPlan_overflow planner st model sg eval infos
      maxSize getOff hbytes hb hplan hover
  · intro st2 eval2 hok hlen
    obtain ⟨infos', maxSize', getOff', offs, a', hinfos', hplan', hle',
      hoffs, hhead, hst2, heval2⟩ :=
      commitStaticMemoryPlan_ok_inv planner st model sg eval st2 eval2 hok
    rw [hb] at hinfos'
    injection hinfos' with hieq
    subst hieq
    rw [hplan] at hplan'
    injection hplan' with hpq
    injection hpq with hm1 hm2
    subst hm1
    subst hm2
    obtain ⟨hatail, _, hahead⟩ := ensureHeadSize_some _ _ _ _ hhead
    obtain ⟨offline, ti, hoffline, hti, hinfoseq, htilen⟩ :=
      buildAllocationInfo_ok_inv _ _ _ _ _ hb
    have hinfoslen : infos.length
        = sg.tensors.length + st.scratch_buffer_handles.length := by
      rw [hinfoseq, List.length_append, htilen, length_addScratchBuffers]
    have hofflen : offs.length = infos.length :=
      planOffsets_length getOff infos 0 offs hoffs
    have htakelen : (offs.take sg.tensors.length).length
        = sg.tensors.length := by
      rw [List.length_take]
      omega
    have hdroplen : (offs.drop sg.tensors.length).length
        = st.scratch_buffer_handles.length := by
      rw [List.length_drop]
      omega
    refine ⟨by rw [hst2]; exact hahead, hinfoslen, ?_, ?_⟩
    · intro t ht hna
      obtain ⟨off, hoffq⟩ := planOffsets_query_ok getOff infos 0 offs hoffs t
        (by omega) hna
      rw [Nat.zero_add] at hoffq
      refine ⟨off, hoffq, ?_⟩
      have hgetd : offs.getD t none = some off := by
        rw [planOffsets_getD getOff infos 0 offs hoffs t, if_pos hna,
          Nat.zero_add, hoffq]
        rfl
      rw [heval2, applyOffsetsEval_getD _ _ _ (htakelen.trans hlen.symm) t,
        getD_take _ _ _ _ ht, hgetd]
    · intro k hk hna
      obtain ⟨off, hoffq⟩ := planOffsets_query_ok getOff infos 0 offs hoffs
        (sg.tensors.length + k) (by omega) hna
      rw [Nat.zero_add] at hoffq
      refine ⟨off, hoffq, ?_⟩
      have hgetd : offs.getD (sg.tensors.length + k) none = some off := by
        rw [planOffsets_getD getOff infos 0 offs hoffs
          (sg.tensors.length + k), if_pos hna, Nat.zero_add, hoffq]
        rfl
      rw [hst2]
      show ((applyOffsetsHandles ((st.allocator.getBufferHead : Nat) : Int)
          st.scratch_buffer_handles
          (offs.drop sg.tensors.length)).getD k default).data
        = some (((st.allocator.getBufferHead : Nat) : Int) + off)
      rw [applyOffsetsHandles_getD _ _ _ hdroplen k, getD_drop, hgetd]

theorem c8_planner_overflow_witness :
    commitStaticMemoryPlan stackPlanner stOver modelOver sgOver evalOver =
      .error (.arenaTooSmall 10016
        (stOver.allocator.getAvailableMemory kBufferAlignment)) :=
  (c8_planner_overflow stackPlanner stOver modelOver sgOver evalOver
    infosOver 10016 getOffOver (by decide) (by decide) rfl).1 (by decide)


theorem finishModelAllocation_run (planner : PlannerModel)
    (st : MicroAllocatorState) (model : Model) (sg : SubGraph)
    (eval : List TfLiteEvalTensor)
    (hsm : st.model_is_allocating = true)
    (hsub : model.subgraphs = [sg]) :
    finishModelAllocation planner st model eval =
      (match commitStaticMemoryPlan planner
          (moveScratchBufferHandlesToTail st).state model sg eval with
       | .error e => ⟨.error e, (moveScratchBufferHandlesToTail st).state,
           eval, [.moveScratch, .commitPlan]⟩
       | .ok (st2, eval2) =>
         match allocateVariables sg eval2 st2.allocator with
         | .error e => ⟨.error e, st2, eval2,
             [.moveScratch, .commitPlan, .allocVars]⟩
         | .ok (eval3, a3) =>
           ⟨.ok (), { st2 with allocator := a3, model_is_allocating := false },
             eval3, [.moveScratch, .commitPlan, .allocVars]⟩) := by
  unfold finishModelAllocation
  rw [hsub, if_neg (by rw [hsm]; simp)]

/-- Claim C3: a tensor marked `is_variable` is excluded from planning (its
`AllocationInfo` entry has `needs_allocating = false` after a successful
`AddTensors`), and after a successful `FinishModelAllocation` its
eval-tensor data pointer is non-null and points at a fresh tail-region
allocation of the tensor's byte length (at or above the final tail cursor
and fitting below the tail cursor the coordinator started from); a null
return from that tail allocation makes `FinishModelAllocation` return an
error, so a successful run never leaves a variable tensor null. -/
theorem c3_variable_tensors (planner : PlannerModel)
    (st : MicroAllocatorState) (model : Model) (sg : SubGraph)
    (eval : List TfLiteEvalTensor) (i : Nat)
    (hsub : model.subgraphs = [sg])
    (hlen : eval.length = sg.tensors.length)
    (hi : i < sg.tensors.length)
    (hvar : (sg.tensors.getD i default).is_variable = true)
    (hok : (finishModelAllocation planner st model eval).status = .ok ()) :
    (∀ (offline : Option (List Int)) (ev : List TfLiteEvalTensor)
        (info : List AllocationInfo),
      addTensors sg offline ev = .ok info → naAt info i = false) ∧
    ∃ p : Int,
      (((finishModelAllocation planner st model eval).eval.getD i
          default)).data = some p ∧
      (((finishModelAllocation planner st model eval).state.allocator.tail
          : Nat) : Int) ≤ p ∧
      p + (((eval.getD i default).bytes : Nat) : Int)
        ≤ ((st.allocator.tail : Nat) : Int) := by
  cases hsmv : st.model_is_allocating with
  | false =>
    exfalso
    unfold finishModelAllocation at hok
    rw [if_pos hsmv] at hok
    exact absurd hok (by simp)
  | true =>
    have hrun := finishModelAllocation_run planner st model sg eval hsmv hsub
    cases hc : commitStaticMemoryPlan planner
        (moveScratchBufferHandlesToTail st).state model sg eval with
    | error e =>
      rw [hc] at hrun
      have hfin : finishModelAllocation planner st model eval =
          ⟨.error e, (moveScratchBufferHandlesToTail st).state, eval,
            [.moveScratch, .commitPlan]⟩ := hrun
      rw [hfin] at hok
      exact absurd hok (by simp)
    | ok pr =>
      obtain ⟨st2, eval2⟩ := pr
      rw [hc] at hrun
      have hfin0 : finishModelAllocation planner st model eval =
          (match allocateVariables sg eval2 st2.allocator with
           | .error e => ⟨.error e, st2, eval2,
               [.moveScratch, .commitPlan, .allocVars]⟩
           | .ok (eval3, a3) =>
             ⟨.ok (),
               { st2 with allocator := a3, model_is_allocating := false },
               eval3, [.moveScratch, .commitPlan, .allocVars]⟩) := hrun
      cases hv : allocateVariables sg eval2 st2.allocator with
      | error e =>
        rw [hv] at hfin0
        have hfin : finishModelAllocation planner st model eval =
            ⟨.error e, st2, eval2, [.moveScratch, .commitPlan, .allocVars]⟩ :=
          hfin0
        rw [hfin] at hok
        exact absurd hok (by simp)
      | ok pr2 =>
        obtain ⟨eval3, a3⟩ := pr2
        rw [hv] at hfin0
        have hfin : finishModelAllocation planner st model eval =
            ⟨.ok (),
              { st2 with allocator := a3, model_is_allocating := false },
              eval3, [.moveScratch, .commitPlan, .allocVars]⟩ := hfin0
        rw [hfin]
        refine ⟨fun offline ev info hadd =>
          addTensors_variable_na sg offline ev info i hadd hi hvar, ?_⟩
        obtain ⟨infos, maxSize, getOff, offs, a', hinfos, hplan, hle,
          hoffs, hhead, hst2, heval2⟩ :=
          commitStaticMemoryPlan_ok_inv planner _ model sg eval st2 eval2 hc
        obtain ⟨offline, ti, hoffline, hti, hinfoseq, htilen⟩ :=
          buildAllocationInfo_ok_inv _ _ _ _ _ hinfos
        have hofflen : offs.length = infos.length :=
          planOffsets_length getOff infos 0 offs hoffs
        have hinfoslen : sg.tensors.length ≤ infos.length := by
          rw [hinfoseq, List.length_append, htilen]
          omega
        have htakelen : (offs.take sg.tensors.length).length
            = sg.tensors.length := by
          rw [List.length_take]
          omega
        have heval2len : eval2.length = sg.tensors.length := by
          rw [heval2, length_applyOffsetsEval, htakelen, hlen, Nat.min_self]
        have hbyteseq : (eval2.getD i default).bytes
            = (eval.getD i default).bytes := by
          rw [heval2, applyOffsetsEval_getD _ _ _ (htakelen.trans hlen.symm) i]
          cases (offs.take sg.tensors.length).getD i none <;> rfl
        obtain ⟨p, hp1, hp2, hp3⟩ := allocateVariables_ok sg eval2
          st2.allocator eval3 a3 hv i hi (by omega) hvar
        refine ⟨p, hp1, hp2, ?_⟩
        rw [hbyteseq] at hp3
        have h1 : st2.allocator.tail
            = (moveScratchBufferHandlesToTail st).state.allocator.tail := by
          rw [hst2]
          exact (ensureHeadSize_some _ _ _ _ hhead).1
        have h2 := moveScratch_tail_le st
        have h3 : ((st2.allocator.tail : Nat) : Int)
            ≤ ((st.allocator.tail : Nat) : Int) := by
          exact_mod_cast (by omega : st2.allocator.tail ≤ st.allocator.tail)
        omega

theorem c3_variable_tensors_witness :
    (∀ (offline : Option (List Int)) (ev : List TfLiteEvalTensor)
        (info : List AllocationInfo),
      addTensors sgVar offline ev = .ok info → naAt info 1 = false) ∧
    ∃ p : Int,
      (((finishModelAllocation stackPlanner stVar modelVar evalVar).eval.getD
          1 default)).data = some p ∧
      (((finishModelAllocation stackPlanner stVar modelVar
          evalVar).state.allocator.tail : Nat) : Int) ≤ p ∧
      p + (((evalVar.getD 1 default).bytes : Nat) : Int)
        ≤ ((stVar.allocator.tail : Nat) : Int) :=
  c3_variable_tensors stackPlanner stVar modelVar sgVar evalVar 1
    rfl rfl (by decide) rfl (by decide)


end tflite
